import Mathlib

/-!
# Verification of the json-schema-to-dts name-resolution and generation pipeline

A shallow embedding of the core of the `json-schema-to-dts` converter:
the type-name registry (`src/registry/type-name-registry.ts`), the schema
scanner and traverser (`src/scanning/scanner.ts`, `src/scanning/traverser.ts`),
the JSON-pointer resolver (`src/resolution/pointer-resolver.ts`), the recursive
type-expression builder and its sub-builders (`src/generation/*`), and the
per-document pipeline driver (`src/index.ts`, `processSchemaFile`).

Conventions of the embedding:
* JavaScript `Map`s become insertion-ordered association lists over `String`.
* JavaScript string truthiness (`if (s)`) is modelled explicitly: a `String`
  is truthy iff it is nonempty; an optional string lookup is truthy iff it is
  `some s` with `s ≠ ""`.
* The recursive builder and the recursive traversal are modelled with an
  explicit fuel parameter; `none` (for the builder) and an unchanged state
  (for the traversal) model running out of fuel.  Every concrete evaluation
  below supplies ample fuel, and fuel-polymorphic theorems show results are
  independent of the remaining budget.
* JSON scalar values (for `const`, `enum`, `examples`) are modelled by
  `JsLit` (strings, integers, booleans, null); float rendering is not needed
  by any property checked here.
* Property access on a non-object JavaScript value yields `undefined`; the
  pointer walker mirrors the exact `current && typeof current === 'object'
  && part in current` test of the source on the modelled fields.  Prototype
  properties of JavaScript objects are outside the model.
-/

/-! ## Association lists (JavaScript `Map` with insertion order) -/

/-- `Map.get`: first (and, under key-nodup, only) binding of `k`. -/
def lookupAssoc {α : Type} : List (String × α) → String → Option α
  | [], _ => none
  | (k, v) :: rest, key => if k = key then some v else lookupAssoc rest key

/-- `Map.set`: overwrite in place if the key exists, else append (insertion order). -/
def setAssoc {α : Type} : List (String × α) → String → α → List (String × α)
  | [], key, v => [(key, v)]
  | (k, w) :: rest, key, v =>
    if k = key then (k, v) :: rest else (k, w) :: setAssoc rest key v

/-- `Map.delete`: remove the binding of `key` (all of them; at most one under nodup). -/
def eraseAssoc {α : Type} : List (String × α) → String → List (String × α)
  | [], _ => []
  | (k, v) :: rest, key =>
    if k = key then eraseAssoc rest key else (k, v) :: eraseAssoc rest key

theorem lookupAssoc_eq_none {α : Type} (l : List (String × α)) (k : String) :
    lookupAssoc l k = none ↔ k ∉ l.map Prod.fst := by
  induction l with
  | nil => simp [lookupAssoc]
  | cons hd tl ih =>
    obtain ⟨k', v⟩ := hd
    by_cases h : k' = k
    · subst h
      simp [lookupAssoc]
    · simp only [lookupAssoc, if_neg h, List.map_cons, List.mem_cons, ih]
      constructor
      · intro hn hm
        rcases hm with hm | hm
        · exact h hm.symm
        · exact hn hm
      · intro hn hm
        exact hn (Or.inr hm)

theorem lookupAssoc_setAssoc_ne {α : Type} (l : List (String × α)) (k k' : String)
    (v : α) (h : k ≠ k') : lookupAssoc (setAssoc l k v) k' = lookupAssoc l k' := by
  induction l with
  | nil => simp [setAssoc, lookupAssoc, h]
  | cons hd tl ih =>
    obtain ⟨a, b⟩ := hd
    by_cases ha : a = k
    · subst ha
      simp [setAssoc, lookupAssoc, h]
    · by_cases hb : a = k'
      · subst hb
        simp [setAssoc, lookupAssoc, ha]
      · simp [setAssoc, lookupAssoc, ha, hb, ih]

theorem lookupAssoc_setAssoc_self {α : Type} (l : List (String × α)) (k : String)
    (v : α) : lookupAssoc (setAssoc l k v) k = some v := by
  induction l with
  | nil => simp [setAssoc, lookupAssoc]
  | cons hd tl ih =>
    obtain ⟨a, b⟩ := hd
    by_cases ha : a = k <;> simp [setAssoc, lookupAssoc, ha, ih]

theorem lookupAssoc_eraseAssoc {α : Type} (l : List (String × α)) (k k' : String) :
    lookupAssoc (eraseAssoc l k) k' =
      if k' = k then none else lookupAssoc l k' := by
  induction l with
  | nil => simp [eraseAssoc, lookupAssoc]
  | cons hd tl ih =>
    obtain ⟨a, b⟩ := hd
    by_cases hak : a = k
    · subst hak
      simp only [eraseAssoc, if_pos rfl, ite_true]
      rw [ih]
      by_cases hk : k' = a
      · simp [hk]
      · simp [hk, lookupAssoc, Ne.symm hk]
    · simp only [eraseAssoc, if_neg hak]
      by_cases hk : a = k'
      · have hkk : ¬k' = k := fun hq => hak (hk.trans hq)
        simp [lookupAssoc, hk, hkk]
      · simp [lookupAssoc, hk, ih]

/-! ## Decimal rendering of numbers (JavaScript template `${n}` / `String(n)`) -/

/-- One decimal digit as a character. -/
def digitChar : Nat → Char
  | 0 => '0' | 1 => '1' | 2 => '2' | 3 => '3' | 4 => '4'
  | 5 => '5' | 6 => '6' | 7 => '7' | 8 => '8' | _ => '9'

/-- Inverse of `digitChar` on decimal digit characters. -/
def charDigitVal : Char → Nat
  | '0' => 0 | '1' => 1 | '2' => 2 | '3' => 3 | '4' => 4
  | '5' => 5 | '6' => 6 | '7' => 7 | '8' => 8 | _ => 9

/-- Digits of `n`, most significant first; structural fuel makes it computable
by `decide`.  Any `fuel > n` is sufficient. -/
def natDigits : Nat → Nat → List Char
  | 0, _ => []
  | fuel + 1, n =>
    if n < 10 then [digitChar n]
    else natDigits fuel (n / 10) ++ [digitChar (n % 10)]

/-- Decimal rendering of a natural number, as JavaScript renders array indices
and template-interpolated counters. -/
def natToDecimal (n : Nat) : String := ⟨natDigits (n + 1) n⟩

/-- Decimal rendering of an integer (`String(n)` for integer-valued numbers). -/
def intToDecimal (n : Int) : String :=
  if n < 0 then "-" ++ natToDecimal n.natAbs else natToDecimal n.natAbs

/-- Value of a digit string, folding left as positional notation. -/
def decListVal (l : List Char) : Nat :=
  l.foldl (fun acc c => acc * 10 + charDigitVal c) 0

theorem charDigitVal_digitChar (d : Nat) (h : d < 10) :
    charDigitVal (digitChar d) = d := by
  interval_cases d <;> rfl

theorem decListVal_append_singleton (l : List Char) (c : Char) :
    decListVal (l ++ [c]) = decListVal l * 10 + charDigitVal c := by
  simp [decListVal, List.foldl_append]

theorem decListVal_natDigits (fuel n : Nat) (h : n < fuel) :
    decListVal (natDigits fuel n) = n := by
  induction fuel generalizing n with
  | zero => omega
  | succ fuel ih =>
    by_cases hn : n < 10
    · simp [natDigits, hn, decListVal, charDigitVal_digitChar n hn]
    · have h10 : 10 ≤ n := Nat.le_of_not_lt hn
      have hdiv : n / 10 < fuel := by
        have h1 : n / 10 < n := Nat.div_lt_self (by omega) (by omega)
        omega
      simp only [natDigits, hn, if_false, decListVal_append_singleton, ih _ hdiv,
        charDigitVal_digitChar (n % 10) (Nat.mod_lt n (by omega))]
      omega

theorem natToDecimal_injective : Function.Injective natToDecimal := by
  intro a b hab
  have ha := decListVal_natDigits (a + 1) a (Nat.lt_succ_self a)
  have hb := decListVal_natDigits (b + 1) b (Nat.lt_succ_self b)
  have : natDigits (a + 1) a = natDigits (b + 1) b :=
    congrArg String.data hab
  rw [this, hb] at ha
  exact ha.symm

theorem natDigits_ne_nil (fuel n : Nat) (h : 0 < fuel) :
    natDigits fuel n ≠ [] := by
  cases fuel with
  | zero => omega
  | succ fuel =>
    by_cases hn : n < 10 <;> simp [natDigits, hn]

theorem natToDecimal_length_pos (n : Nat) : 0 < (natToDecimal n).length := by
  have h := natDigits_ne_nil (n + 1) n (Nat.succ_pos n)
  have : (natToDecimal n).length = (natDigits (n + 1) n).length := rfl
  rw [this]
  exact List.length_pos.mpr h

/-! ## `toPascalCase` (src/utils/naming.ts)

The source composes three regex passes: replace every non-alphanumeric
character by a space, trim, uppercase every alphanumeric character at the
start or preceded by whitespace (the regex consumes the whitespace), then
drop remaining spaces.  The net effect implemented here: split into runs of
alphanumerics, uppercase the head of each run, concatenate. -/

/-- Uppercase run-initial characters and drop spaces.  The flag is true at a
run boundary (start of string or after a space). -/
def pascalAux : Bool → List Char → List Char
  | _, [] => []
  | _, ' ' :: rest => pascalAux true rest
  | b, c :: rest => (if b then c.toUpper else c) :: pascalAux false rest

def toPascalCase (s : String) : String :=
  let cleaned := s.data.map (fun c => if c.isAlphanum then c else ' ')
  let trimmed := (cleaned.dropWhile (· = ' ')).reverse.dropWhile (· = ' ') |>.reverse
  ⟨pascalAux true trimmed⟩

/-- JavaScript `String.prototype.includes` on the model's character lists. -/
def listContainsSub (sub : List Char) : List Char → Bool
  | [] => sub.isEmpty
  | c :: rest => sub.isPrefixOf (c :: rest) || listContainsSub sub rest

def strContains (s sub : String) : Bool := listContainsSub sub.data s.data

/-- JavaScript `String.prototype.startsWith`, over the character lists. -/
def strStartsWith (s pre : String) : Bool := pre.data.isPrefixOf s.data

/-- Drop the first `n` characters (used for fixed-prefix stripping). -/
def strDrop (s : String) (n : Nat) : String := ⟨s.data.drop n⟩

/-- JavaScript `String.prototype.split` with a one-character separator (the
source only ever splits on `'/'`). -/
def splitOnCharAux (sep : Char) : List Char → List Char → List String
  | [], acc => [⟨acc.reverse⟩]
  | c :: rest, acc =>
    if c = sep then ⟨acc.reverse⟩ :: splitOnCharAux sep rest []
    else splitOnCharAux sep rest (c :: acc)

def strSplitOn (s : String) (sep : Char) : List String :=
  splitOnCharAux sep s.data []

/-- JavaScript string truthiness for an optional lookup result: `some s` with
`s` nonempty. -/
def truthyStr (o : Option String) : Option String :=
  o.bind (fun s => if s = "" then none else some s)

/-! ## Type-name registry (src/registry/type-name-registry.ts) -/

/-- Internal entry: the unique assigned name and the originally requested
base name. -/
structure RegEntry where
  name : String
  baseName : String
deriving DecidableEq, Repr

/-- The registry closure state: `jsonPointerToEntryMap` and `typeNameCount`. -/
structure RegState where
  entries : List (String × RegEntry)
  counts : List (String × Nat)
deriving DecidableEq, Repr

def emptyReg : RegState := ⟨[], []⟩

/-- The suffixed name produced when `count` previous registrations used the
same base name: the bare base name for the first, `base_count` afterwards. -/
def suffixName (base : String) (count : Nat) : String :=
  if count = 0 then base else base ++ "_" ++ natToDecimal count

/-- `getUniqueTypeName`: read the per-base counter (defaulting to 0), bump it,
and suffix when the base name was already taken. -/
def getUniqueTypeName (s : RegState) (base : String) : String × RegState :=
  let count := (lookupAssoc s.counts base).getD 0
  (suffixName base count, { s with counts := setAssoc s.counts base (count + 1) })

/-- `register(pointer, name)`: return the existing registration unchanged if
present, else assign a unique name and append the entry. -/
def register (s : RegState) (pointer name : String) : String × RegState :=
  match lookupAssoc s.entries pointer with
  | some e => (e.name, s)
  | none =>
    let (uniqueName, s') := getUniqueTypeName s name
    (uniqueName,
     { s' with entries := s'.entries ++ [(pointer, ⟨uniqueName, name⟩)] })

/-- `get(pointer)`: the assigned name, if registered. -/
def regGet (s : RegState) (pointer : String) : Option String :=
  (lookupAssoc s.entries pointer).map RegEntry.name

/-- `getBaseName(pointer)`. -/
def regGetBaseName (s : RegState) (pointer : String) : Option String :=
  (lookupAssoc s.entries pointer).map RegEntry.baseName

/-- `delete(pointer)`. -/
def regDelete (s : RegState) (pointer : String) : RegState :=
  { s with entries := eraseAssoc s.entries pointer }

/-- An arbitrary client operation on the registry, for reachability claims. -/
inductive RegOp where
  | reg (pointer name : String)
  | del (pointer : String)

def applyOp (s : RegState) : RegOp → RegState
  | RegOp.reg p n => (register s p n).2
  | RegOp.del p => regDelete s p

/-- The registry state reached from a fresh registry by a sequence of
`register`/`delete` calls. -/
def applyOps (ops : List RegOp) : RegState :=
  ops.foldl applyOp emptyReg

/-- Sequential registration of a list of pointers all requesting the same
base name; returns the assigned names in registration order. -/
def registerSeq (s : RegState) (ps : List String) (base : String) :
    List String × RegState :=
  match ps with
  | [] => ([], s)
  | p :: rest =>
    let (n, s') := register s p base
    let (ns, s'') := registerSeq s' rest base
    (n :: ns, s'')

/-! ## Schema documents (src/types/json-schema.ts)

The recursive schema node.  Fields the core never reads (`$schema`, `$id`,
`not`, `format`, `default`) are omitted.  `$defs` and `$ref` are spelled
`defs` and `ref`.  `Record<string, JsonSchema>` fields are insertion-ordered
association lists (`Object.entries` order). -/

/-- `type`: a single primitive name or a list of names. -/
inductive JsonType where
  | single (s : String)
  | list (l : List String)
deriving DecidableEq, Repr

/-- A JSON scalar value, for `const` / `enum` / `examples`. -/
inductive JsLit where
  | str (s : String)
  | num (n : Int)
  | bool (b : Bool)
  | null
deriving DecidableEq, Repr

inductive JsonSchema : Type where
  | mk
    (title : Option String)
    (description : Option String)
    (type : Option JsonType)
    (properties : Option (List (String × JsonSchema)))
    (required : Option (List String))
    (items : Option (JsonSchema ⊕ List JsonSchema))
    (additionalProperties : Option (Bool ⊕ JsonSchema))
    (enum : Option (List JsLit))
    (const : Option JsLit)
    (allOf : Option (List JsonSchema))
    (anyOf : Option (List JsonSchema))
    (oneOf : Option (List JsonSchema))
    (definitions : Option (List (String × JsonSchema)))
    (defs : Option (List (String × JsonSchema)))
    (ref : Option String)
    (examples : Option (List JsLit))

def JsonSchema.title : JsonSchema → Option String
  | .mk t _ _ _ _ _ _ _ _ _ _ _ _ _ _ _ => t

def JsonSchema.description : JsonSchema → Option String
  | .mk _ d _ _ _ _ _ _ _ _ _ _ _ _ _ _ => d

def JsonSchema.type : JsonSchema → Option JsonType
  | .mk _ _ t _ _ _ _ _ _ _ _ _ _ _ _ _ => t

def JsonSchema.properties : JsonSchema → Option (List (String × JsonSchema))
  | .mk _ _ _ p _ _ _ _ _ _ _ _ _ _ _ _ => p

def JsonSchema.required : JsonSchema → Option (List String)
  | .mk _ _ _ _ r _ _ _ _ _ _ _ _ _ _ _ => r

def JsonSchema.items : JsonSchema → Option (JsonSchema ⊕ List JsonSchema)
  | .mk _ _ _ _ _ i _ _ _ _ _ _ _ _ _ _ => i

def JsonSchema.additionalProperties : JsonSchema → Option (Bool ⊕ JsonSchema)
  | .mk _ _ _ _ _ _ a _ _ _ _ _ _ _ _ _ => a

def JsonSchema.enum : JsonSchema → Option (List JsLit)
  | .mk _ _ _ _ _ _ _ e _ _ _ _ _ _ _ _ => e

def JsonSchema.const : JsonSchema → Option JsLit
  | .mk _ _ _ _ _ _ _ _ c _ _ _ _ _ _ _ => c

def JsonSchema.allOf : JsonSchema → Option (List JsonSchema)
  | .mk _ _ _ _ _ _ _ _ _ a _ _ _ _ _ _ => a

def JsonSchema.anyOf : JsonSchema → Option (List JsonSchema)
  | .mk _ _ _ _ _ _ _ _ _ _ a _ _ _ _ _ => a

def JsonSchema.oneOf : JsonSchema → Option (List JsonSchema)
  | .mk _ _ _ _ _ _ _ _ _ _ _ o _ _ _ _ => o

def JsonSchema.definitions : JsonSchema → Option (List (String × JsonSchema))
  | .mk _ _ _ _ _ _ _ _ _ _ _ _ d _ _ _ => d

def JsonSchema.defs : JsonSchema → Option (List (String × JsonSchema))
  | .mk _ _ _ _ _ _ _ _ _ _ _ _ _ d _ _ => d

def JsonSchema.ref : JsonSchema → Option String
  | .mk _ _ _ _ _ _ _ _ _ _ _ _ _ _ r _ => r

def JsonSchema.examples : JsonSchema → Option (List JsLit)
  | .mk _ _ _ _ _ _ _ _ _ _ _ _ _ _ _ e => e

/-- The empty schema object `{}`. -/
def emptySchema : JsonSchema :=
  .mk none none none none none none none none none none none none none none
    none none

/-- Truthiness of an optional `type` facet: a nonempty single name or any
list (JavaScript arrays are truthy even when empty). -/
def typeTruthy : Option JsonType → Bool
  | some (.single s) => !(s == "")
  | some (.list _) => true
  | none => false

/-- Truthiness of `additionalProperties` (`false` is falsy, objects truthy). -/
def apTruthy : Option (Bool ⊕ JsonSchema) → Bool
  | some (.inl b) => b
  | some (.inr _) => true
  | none => false

/-! ## JSON pointer resolution (src/resolution/pointer-resolver.ts)

The JavaScript walker visits arbitrary intermediate values (`properties`
maps, `items` arrays, scalar facet values), so the walk is over a value
universe `JVal`.  Field access on a non-object value yields no result, as
the source's `typeof current === 'object'` guard does. -/

inductive JVal where
  | sch (s : JsonSchema)
  | schList (l : List JsonSchema)
  | schMap (m : List (String × JsonSchema))
  | strList (l : List String)
  | litList (l : List JsLit)
  | lit (v : JsLit)
  | jbool (b : Bool)

/-- Own-property access on a schema object, by JSON field name. -/
def schemaField (s : JsonSchema) (part : String) : Option JVal :=
  if part = "title" then s.title.map (fun t => JVal.lit (.str t))
  else if part = "description" then s.description.map (fun t => JVal.lit (.str t))
  else if part = "type" then
    s.type.map (fun t => match t with
      | .single n => JVal.lit (.str n)
      | .list l => JVal.strList l)
  else if part = "properties" then s.properties.map JVal.schMap
  else if part = "required" then s.required.map JVal.strList
  else if part = "items" then
    s.items.map (fun i => match i with
      | .inl one => JVal.sch one
      | .inr l => JVal.schList l)
  else if part = "additionalProperties" then
    s.additionalProperties.map (fun a => match a with
      | .inl b => JVal.jbool b
      | .inr c => JVal.sch c)
  else if part = "enum" then s.enum.map JVal.litList
  else if part = "const" then s.const.map JVal.lit
  else if part = "allOf" then s.allOf.map JVal.schList
  else if part = "anyOf" then s.anyOf.map JVal.schList
  else if part = "oneOf" then s.oneOf.map JVal.schList
  else if part = "definitions" then s.definitions.map JVal.schMap
  else if part = "$defs" then s.defs.map JVal.schMap
  else if part = "$ref" then s.ref.map (fun r => JVal.lit (.str r))
  else if part = "examples" then s.examples.map JVal.litList
  else none

/-- JavaScript canonical array indexing: `part` must be the canonical
decimal rendering of an index below the length. -/
def pickIndex {α : Type} (l : List α) (part : String) : Option α :=
  ((List.range l.length).find? (fun i => natToDecimal i == part)).bind l.get?

/-- One step of the pointer walk (`part in current` followed by
`current[part]`). -/
def jvalStep (v : JVal) (part : String) : Option JVal :=
  match v with
  | .sch s => schemaField s part
  | .schMap m => (lookupAssoc m part).map JVal.sch
  | .schList l =>
    if part = "length" then some (.lit (.num l.length))
    else (pickIndex l part).map JVal.sch
  | .strList l =>
    if part = "length" then some (.lit (.num l.length))
    else (pickIndex l part).map (fun s => JVal.lit (.str s))
  | .litList l =>
    if part = "length" then some (.lit (.num l.length))
    else (pickIndex l part).map JVal.lit
  | .lit _ => none
  | .jbool _ => none

/-- JavaScript truthiness of a walked value. -/
def jvalTruthy : JVal → Bool
  | .sch _ => true
  | .schList _ => true
  | .schMap _ => true
  | .strList _ => true
  | .litList _ => true
  | .lit (.str s) => !(s == "")
  | .lit (.num n) => !(n == 0)
  | .lit (.bool b) => b
  | .lit .null => false
  | .jbool b => b

/-- Using an arbitrary walked value where the source expects a schema:
every modelled facet read on a non-schema object yields `undefined`, which
the empty schema models.  (A container object whose keys collide with facet
names is outside the model; no checked property depends on one.) -/
def asSchema : JVal → JsonSchema
  | .sch s => s
  | _ => emptySchema

/-- `resolvePointer({root, pointer})`: `'#'` is the root; otherwise strip a
leading `#/` and walk the segments. -/
def resolvePointer (root : JsonSchema) (pointer : String) : Option JVal :=
  if pointer = "#" then some (.sch root)
  else
    let body := if strStartsWith pointer "#/" then strDrop pointer 2 else pointer
    (strSplitOn body '/').foldlM jvalStep (JVal.sch root)

/-- `resolveRef({ref, rootSchema})`: definitions/`$defs` shorthand first,
then arbitrary pointers; every failure falls back to `{}`. -/
def resolveRef (ref : String) (rootSchema : JsonSchema) : JVal :=
  if strStartsWith ref "#/definitions/" then
    match rootSchema.definitions.bind
        (fun m => lookupAssoc m (strDrop ref 14)) with
    | some s => .sch s
    | none => .sch emptySchema
  else if strStartsWith ref "#/$defs/" then
    match rootSchema.defs.bind (fun m => lookupAssoc m (strDrop ref 8)) with
    | some s => .sch s
    | none => .sch emptySchema
  else if strStartsWith ref "#/" then
    match resolvePointer rootSchema ref with
    | some v => if jvalTruthy v then v else .sch emptySchema
    | none => .sch emptySchema
  else .sch emptySchema

/-- `Object.keys(resolved).length` on a walked value: present fields of a
schema object, entries of a container, index keys of a string. -/
def jvalKeysCount : JVal → Nat
  | .sch s =>
    (if s.title.isSome then 1 else 0) + (if s.description.isSome then 1 else 0) +
    (if s.type.isSome then 1 else 0) + (if s.properties.isSome then 1 else 0) +
    (if s.required.isSome then 1 else 0) + (if s.items.isSome then 1 else 0) +
    (if s.additionalProperties.isSome then 1 else 0) +
    (if s.enum.isSome then 1 else 0) + (if s.const.isSome then 1 else 0) +
    (if s.allOf.isSome then 1 else 0) + (if s.anyOf.isSome then 1 else 0) +
    (if s.oneOf.isSome then 1 else 0) + (if s.definitions.isSome then 1 else 0) +
    (if s.defs.isSome then 1 else 0) + (if s.ref.isSome then 1 else 0) +
    (if s.examples.isSome then 1 else 0)
  | .schList l => l.length
  | .schMap m => m.length
  | .strList l => l.length
  | .litList l => l.length
  | .lit (.str s) => s.length
  | .lit _ => 0
  | .jbool _ => 0

/-! ## Build context (src/generation/type-builders/context.ts) -/

structure TypeBuildContext where
  schema : JsonSchema
  rootSchema : JsonSchema
  registry : Option RegState
  pointer : String
  lookupInRegistry : Bool

/-- `createChildContext(parent, schema, pointerSuffix)`: extend the pointer
and re-enable registry lookup. -/
def createChildContext (parent : TypeBuildContext) (schema : JsonSchema)
    (pointerSuffix : String) : TypeBuildContext :=
  ⟨schema, parent.rootSchema, parent.registry,
   parent.pointer ++ "/" ++ pointerSuffix, true⟩

/-! ## Primitive mapping (src/generation/type-builders/primitive.ts) -/

def mapJsonTypeToTs (jsonType : String) : String :=
  if jsonType = "string" then "string"
  else if jsonType = "number" then "number"
  else if jsonType = "integer" then "number"
  else if jsonType = "boolean" then "boolean"
  else if jsonType = "null" then "null"
  else if jsonType = "array" then "any[]"
  else if jsonType = "object" then "object"
  else "any"

/-! ## Union builders (src/generation/type-builders/union.ts) -/

/-- The shared literal rendering
`typeof val === "string" ? `"${val}"` : String(val)`
used by `buildEnumType` and `buildConstType`. -/
def renderLiteral : JsLit → String
  | .str s => "\"" ++ s ++ "\""
  | .num n => intToDecimal n
  | .bool b => if b then "true" else "false"
  | .null => "null"

def buildEnumType (enumValues : List JsLit) : String :=
  String.intercalate " | " (enumValues.map renderLiteral)

def buildConstType (constValue : JsLit) : String := renderLiteral constValue

def buildTypeArrayUnion (types : List String) : String :=
  String.intercalate " | " (types.map mapJsonTypeToTs)

/-- Build a list of member schemas at child pointers `pfx/0`, `pfx/1`, …
(the `schemas.map((schema, index) => …)` pattern). -/
def buildListIdx (bt : TypeBuildContext → Option String)
    (pctx : TypeBuildContext) (pfx : String) :
    Nat → List JsonSchema → Option (List String)
  | _, [] => some []
  | i, s :: rest => do
    let t ← bt (createChildContext pctx s (pfx ++ "/" ++ natToDecimal i))
    let ts ← buildListIdx bt pctx pfx (i + 1) rest
    pure (t :: ts)

def buildUnionType (bt : TypeBuildContext → Option String)
    (schemas : List JsonSchema) (parentContext : TypeBuildContext)
    (pointerSuffix : String) : Option String := do
  let types ← buildListIdx bt parentContext pointerSuffix 0 schemas
  pure (String.intercalate " | " types)

/-! ## Intersection builder (src/generation/type-builders/intersection.ts) -/

/-- `buildIntersectionType`: build all members, drop `'any'`/`'unknown'`
results, join with ` & `; the inner `none` is the source's `null` result.
The outer `Option` is the fuel monad. -/
def buildIntersectionType (bt : TypeBuildContext → Option String)
    (schemas : List JsonSchema) (parentContext : TypeBuildContext) :
    Option (Option String) := do
  let types ← buildListIdx bt parentContext "allOf" 0 schemas
  let meaningfulTypes := types.filter (fun t => t != "any" && t != "unknown")
  if meaningfulTypes.isEmpty then pure none
  else pure (some (String.intercalate " & " meaningfulTypes))

/-! ## Object builder (src/generation/type-builders/object.ts) -/

def hasObjectDefinition (schema : JsonSchema) : Bool :=
  schema.properties.isSome || apTruthy schema.additionalProperties ||
    schema.type == some (.single "object")

/-- One `  key` / `  key?` property line per entry, in declared order. -/
def buildPropLines (bt : TypeBuildContext → Option String)
    (ctx : TypeBuildContext) (schema : JsonSchema) :
    List (String × JsonSchema) → Option (List String)
  | [] => some []
  | (key, propSchema) :: rest => do
    let isRequired := match schema.required with
      | some req => req.contains key
      | none => false
    let propType ← bt (createChildContext ctx propSchema ("properties/" ++ key))
    let line := "  " ++ key ++ (if isRequired then "" else "?") ++ ": " ++
      propType ++ ";"
    let restLines ← buildPropLines bt ctx schema rest
    pure (line :: restLines)

def buildObjectType (bt : TypeBuildContext → Option String)
    (schema : JsonSchema) (ctx : TypeBuildContext) : Option String := do
  if schema.properties.isNone && !apTruthy schema.additionalProperties then
    pure "Record<string, any>"
  else
    let propLines ← match schema.properties with
      | some props => buildPropLines bt ctx schema props
      | none => pure []
    let apLines : List String ← match schema.additionalProperties with
      | some (.inr child) => do
        let valueType ← bt (createChildContext ctx child "additionalProperties")
        pure ["  [key: string]: " ++ valueType ++ ";"]
      | some (.inl true) => pure ["  [key: string]: any;"]
      | _ => pure []
    pure ("\x7b\n" ++ String.intercalate "\n" (propLines ++ apLines) ++
      "\n\x7d")

/-! ## Array builder (src/generation/type-builders/array.ts) -/

/-- Tuple member types at `items/0`, `items/1`, …. -/
def buildTupleTypes (bt : TypeBuildContext → Option String)
    (ctx : TypeBuildContext) : Nat → List JsonSchema → Option (List String)
  | _, [] => some []
  | i, item :: rest => do
    let t ← bt (createChildContext ctx item ("items/" ++ natToDecimal i))
    let ts ← buildTupleTypes bt ctx (i + 1) rest
    pure (t :: ts)

def buildArrayType (bt : TypeBuildContext → Option String)
    (schema : JsonSchema) (ctx : TypeBuildContext) : Option String :=
  match schema.items with
  | none => some "any[]"
  | some (.inr l) => do
    let tupleTypes ← buildTupleTypes bt ctx 0 l
    pure ("[" ++ String.intercalate ", " tupleTypes ++ "]")
  | some (.inl one) => do
    let itemType ← bt (createChildContext ctx one "items")
    if strContains itemType " | " || strContains itemType " & " then
      pure ("(" ++ itemType ++ ")[]")
    else pure (itemType ++ "[]")

/-! ## Reference builder (src/generation/type-builders/reference.ts) -/

/-- The last `/`-segment of a reference path (`parts[parts.length - 1]`). -/
def lastSeg (ref : String) : String := (strSplitOn ref '/').getLastD ""

/-- Legacy fallback: resolve the reference directly; inline simple typed
fragments, otherwise derive a PascalCase name from the path. -/
def resolveLegacyRef (bt : TypeBuildContext → Option String) (ref : String)
    (rootSchema : JsonSchema) (registry : Option RegState) : Option String :=
  let resolved := resolveRef ref rootSchema
  if jvalTruthy resolved && 0 < jvalKeysCount resolved then
    let rs := asSchema resolved
    if typeTruthy rs.type && rs.properties.isNone && rs.items.isNone &&
        rs.oneOf.isNone then
      bt ⟨rs, rootSchema, registry, "#/legacy-fallback", false⟩
    else
      some (toPascalCase (lastSeg ref))
  else some (toPascalCase (lastSeg ref))

/-- `buildReferenceType`: registry lookup first, then the legacy fallback. -/
def buildReferenceType (bt : TypeBuildContext → Option String) (ref : String)
    (rootSchema : JsonSchema) (registry : Option RegState) : Option String :=
  match registry.bind (fun reg => truthyStr (regGet reg ref)) with
  | some registeredName => some registeredName
  | none => resolveLegacyRef bt ref rootSchema registry

/-! ## Main recursive builder (src/generation/generator.ts, `buildTypeFromSchema`) -/

/-- Steps 4–9 of the builder (object shape, combining, const, enum, type
dispatch), after the combinator result has been computed. -/
def buildTypeRest (bt : TypeBuildContext → Option String)
    (ctx : TypeBuildContext) (combinatorType : Option String) :
    Option String := do
      let objectType : Option String ←
        if hasObjectDefinition ctx.schema then
          if ctx.schema.properties.isSome ||
              apTruthy ctx.schema.additionalProperties then
            (buildObjectType bt ctx.schema ctx).map some
          else if ctx.schema.type == some (.single "object") &&
              (truthyStr combinatorType).isNone then
            pure (some "Record<string, any>")
          else pure none
        else pure none
      match truthyStr objectType, truthyStr combinatorType with
      | some o, some c => pure (o ++ " & (" ++ c ++ ")")
      | _, _ =>
        match truthyStr combinatorType with
        | some c => pure c
        | none =>
          match truthyStr objectType with
          | some o => pure o
          | none =>
            match ctx.schema.const with
            | some v => pure (buildConstType v)
            | none =>
              match ctx.schema.enum with
              | some vs => pure (buildEnumType vs)
              | none =>
                match ctx.schema.type with
                | some (.list ts) => pure (buildTypeArrayUnion ts)
                | some (.single t) =>
                  if t = "string" then pure "string"
                  else if t = "number" then pure "number"
                  else if t = "integer" then pure "number"
                  else if t = "boolean" then pure "boolean"
                  else if t = "null" then pure "null"
                  else if t = "array" then buildArrayType bt ctx.schema ctx
                  else pure "any"
                | none => pure "any"

/-- One unfolding of the builder, parameterised by the recursive call:
registry lookup, `$ref`, then the combinator result feeding `buildTypeRest`. -/
def buildTypeCore (bt : TypeBuildContext → Option String)
    (ctx : TypeBuildContext) : Option String :=
  match (if ctx.lookupInRegistry then
           ctx.registry.bind (fun reg => truthyStr (regGet reg ctx.pointer))
         else none) with
  | some registeredName => some registeredName
  | none =>
    match truthyStr ctx.schema.ref with
    | some r => buildReferenceType bt r ctx.rootSchema ctx.registry
    | none => do
      let combinatorType : Option String ←
        match ctx.schema.oneOf with
        | some l => (buildUnionType bt l ctx "oneOf").map some
        | none =>
          match ctx.schema.anyOf with
          | some l => (buildUnionType bt l ctx "anyOf").map some
          | none =>
            match ctx.schema.allOf with
            | some l => buildIntersectionType bt l ctx
            | none => pure none
      buildTypeRest bt ctx combinatorType

/-- The recursive builder, with structural fuel; `none` models an
exhausted budget (the JavaScript source recurses without a bound). -/
def buildTypeFromSchema : Nat → TypeBuildContext → Option String
  | 0, _ => none
  | fuel + 1, ctx => buildTypeCore (buildTypeFromSchema fuel) ctx

/-! ## JSDoc builder (src/generation/jsdoc.ts) -/

/-- `JSON.stringify(v, null, 2)` on a scalar (no indentation is inserted
for scalars; the strings used here need no escaping). -/
def jsonStringify : JsLit → String
  | .str s => "\"" ++ s ++ "\""
  | .num n => intToDecimal n
  | .bool b => if b then "true" else "false"
  | .null => "null"

def generateJSDoc (schema : JsonSchema) : String :=
  let lines : List String :=
    match schema.title with
    | some t => if t = "" then [] else [t]
    | none => []
  let lines :=
    match schema.description with
    | some d =>
      if d = "" then lines
      else lines ++ (if lines.length > 0 then [""] else []) ++ [d]
    | none => lines
  let lines :=
    match schema.examples with
    | some (e :: _) => lines ++ ["", "@example", jsonStringify e]
    | _ => lines
  if lines.isEmpty then ""
  else "/**\n * " ++ String.intercalate "\n * " lines ++ "\n */\n"

/-! ## Declaration decider (src/generation/type-decider.ts) -/

def shouldUseTypeAlias (schema : JsonSchema) (typeDefinition : String) : Bool :=
  if schema.enum.isSome || schema.const.isSome then true
  else if (match schema.type with
           | some (.single t) =>
             t = "string" || t = "number" || t = "boolean" || t = "array"
           | _ => false) then true
  else if (match schema.type with
           | some (.list _) => true
           | _ => false) then true
  else if schema.oneOf.isSome || schema.anyOf.isSome || schema.allOf.isSome then
    true
  else if strContains typeDefinition " & " then true
  else if schema.type != some (.single "object") ||
      !strStartsWith typeDefinition "\x7b" then true
  else false

def getDeclarationParts (isTypeAlias : Bool) : String × String :=
  if isTypeAlias then ("type", " = ") else ("interface", " ")

/-! ## Declaration generation (src/generation/generator.ts) -/

structure GeneratedType where
  definition : String
  typeName : String
deriving DecidableEq, Repr

def generateTypeDefinition (fuel : Nat) (name : String)
    (schema rootSchema : JsonSchema) (registry : Option RegState)
    (pointer : String) : Option GeneratedType := do
  let jsDoc := generateJSDoc schema
  let typeName := name
  let typeDefinition ←
    buildTypeFromSchema fuel ⟨schema, rootSchema, registry, pointer, false⟩
  let isTypeAlias := shouldUseTypeAlias schema typeDefinition
  let (keyword, separator) := getDeclarationParts isTypeAlias
  pure ⟨jsDoc ++ keyword ++ " " ++ typeName ++ separator ++ typeDefinition,
    typeName⟩

/-! ## Scanner pass 1 — traversal (src/scanning/traverser.ts) -/

structure ScanState where
  reg : RegState
  refs : List String
deriving Repr

/-- `references.add(ref)` on an insertion-ordered set. -/
def addRef (st : ScanState) (r : String) : ScanState :=
  if st.refs.contains r then st else ⟨st.reg, st.refs ++ [r]⟩

def isRootOrDefinition (pointer : String) : Bool :=
  pointer == "#" || strContains pointer "/definitions/" ||
    strContains pointer "/$defs/"

/-- Fold with the element index, for the `forEach((x, index) => …)` loops. -/
def foldIdx {α σ : Type} (f : σ → Nat → α → σ) : σ → Nat → List α → σ
  | st, _, [] => st
  | st, i, x :: rest => foldIdx f (f st i x) (i + 1) rest

/-- Sub-traversal of `definitions` and `$defs`, parameterised by the
recursive call (`traverseDefinitions` in the source). -/
def traverseDefinitions
    (rec : JsonSchema → String → String → ScanState → ScanState)
    (schema : JsonSchema) (pointer parentName : String) (st : ScanState) :
    ScanState :=
  let st := match schema.definitions with
    | some m => m.foldl (fun acc kv =>
        rec kv.2 (pointer ++ "/definitions/" ++ kv.1)
          (toPascalCase kv.1) acc) st
    | none => st
  match schema.defs with
  | some m => m.foldl (fun acc kv =>
      rec kv.2 (pointer ++ "/$defs/" ++ kv.1) (toPascalCase kv.1) acc) st
  | none => st

/-- Sub-traversal of `properties`. -/
def traverseProperties
    (rec : JsonSchema → String → String → ScanState → ScanState)
    (schema : JsonSchema) (pointer parentName : String) (st : ScanState) :
    ScanState :=
  match schema.properties with
  | some props => props.foldl (fun acc kv =>
      rec kv.2 (pointer ++ "/properties/" ++ kv.1)
        (parentName ++ toPascalCase kv.1) acc) st
  | none => st

/-- Sub-traversal of `items` (single schema or tuple). -/
def traverseItems
    (rec : JsonSchema → String → String → ScanState → ScanState)
    (schema : JsonSchema) (pointer parentName : String) (st : ScanState) :
    ScanState :=
  match schema.items with
  | some (.inr l) => foldIdx (fun acc i item =>
      rec item (pointer ++ "/items/" ++ natToDecimal i)
        (parentName ++ "Item" ++ natToDecimal i) acc) st 0 l
  | some (.inl one) =>
    rec one (pointer ++ "/items") (parentName ++ "Item") st
  | none => st

/-- Sub-traversal of an object-valued `additionalProperties`. -/
def traverseAdditionalProperties
    (rec : JsonSchema → String → String → ScanState → ScanState)
    (schema : JsonSchema) (pointer parentName : String) (st : ScanState) :
    ScanState :=
  match schema.additionalProperties with
  | some (.inr child) =>
    rec child (pointer ++ "/additionalProperties") (parentName ++ "Value") st
  | _ => st

/-- Sub-traversal of `oneOf`/`anyOf`/`allOf`; bare-`$ref` members get an
empty suggested name. -/
def traverseCombinators
    (rec : JsonSchema → String → String → ScanState → ScanState)
    (schema : JsonSchema) (pointer parentName : String) (st : ScanState) :
    ScanState :=
  let st := match schema.oneOf with
    | some l => foldIdx (fun acc i sub =>
        let subName := if (truthyStr sub.ref).isSome then ""
          else parentName ++ "Option" ++ natToDecimal i
        rec sub (pointer ++ "/oneOf/" ++ natToDecimal i) subName acc) st 0 l
    | none => st
  let st := match schema.anyOf with
    | some l => foldIdx (fun acc i sub =>
        let subName := if (truthyStr sub.ref).isSome then ""
          else parentName ++ "Option" ++ natToDecimal i
        rec sub (pointer ++ "/anyOf/" ++ natToDecimal i) subName acc) st 0 l
    | none => st
  match schema.allOf with
  | some l => foldIdx (fun acc i sub =>
      let subName := if (truthyStr sub.ref).isSome then ""
        else parentName ++ "Part" ++ natToDecimal i
      rec sub (pointer ++ "/allOf/" ++ natToDecimal i) subName acc) st 0 l
  | none => st

/-- Pass-1 traversal: collect the `$ref`, compute the node's name, register
it if nonempty, then run the five sub-traversals in source order.  Fuel
bounds the recursion depth; an exhausted budget leaves the state
unchanged. -/
def traverse : Nat → JsonSchema → String → String → ScanState → ScanState
  | 0, _, _, _, st => st
  | fuel + 1, schema, pointer, suggestedName, st =>
    let st := match truthyStr schema.ref with
      | some r => addRef st r
      | none => st
    let name := match truthyStr schema.title with
      | some t =>
        if isRootOrDefinition pointer then toPascalCase t
        else if suggestedName = "" then toPascalCase t
        else suggestedName
      | none => suggestedName
    let st := if name = "" then st
      else ⟨(register st.reg pointer name).2, st.refs⟩
    let st := traverseDefinitions (traverse fuel) schema pointer name st
    let st := traverseProperties (traverse fuel) schema pointer name st
    let st := traverseItems (traverse fuel) schema pointer name st
    let st := traverseAdditionalProperties (traverse fuel) schema pointer
      name st
    traverseCombinators (traverse fuel) schema pointer name st

/-! ## Scanner passes 2 and 3 (src/scanning/scanner.ts) -/

/-- Pass 2: register every internal reference that is still unregistered,
naming it after its final path segment. -/
def registerMissingReferences (refs : List String) (reg : RegState) : RegState :=
  refs.foldl (fun acc ref =>
    if !strStartsWith ref "#" then acc
    else match truthyStr (regGet acc ref) with
      | some _ => acc
      | none => (register acc ref (toPascalCase (lastSeg ref))).2) reg

/-- One iteration of the pass-3 loop: delete `pointer` when its fragment is
truthy, carries a truthy internal `$ref` whose target is registered under a
truthy name, and both base names are truthy and equal. -/
def cleanupOne (schema : JsonSchema) (reg : RegState) (pointer : String) :
    RegState :=
  match resolvePointer schema pointer with
  | none => reg
  | some frag =>
    if jvalTruthy frag then
      match truthyStr (asSchema frag).ref with
      | some r =>
        if !strStartsWith r "#" then reg
        else match truthyStr (regGet reg r) with
          | some _ =>
            match truthyStr (regGetBaseName reg pointer),
                truthyStr (regGetBaseName reg r) with
            | some myBase, some targetBase =>
              if myBase = targetBase then regDelete reg pointer else reg
            | _, _ => reg
          | none => reg
      | none => reg
    else reg

/-- Pass 3: iterate over a snapshot of the registered pointers. -/
def cleanupRedundantAliases (schema : JsonSchema) (reg : RegState) : RegState :=
  (reg.entries.map Prod.fst).foldl (cleanupOne schema) reg

/-- `scanSchema`: the three passes over a fresh reference set, starting at
the root pointer `#` with an empty suggested name. -/
def scanSchema (fuel : Nat) (schema : JsonSchema) : RegState :=
  let st := traverse fuel schema "#" "" ⟨emptyReg, []⟩
  let reg := registerMissingReferences st.refs st.reg
  cleanupRedundantAliases schema reg

/-! ## Pipeline driver (src/index.ts, `processSchemaFile`) -/

/-- Lexicographic comparison of code points, as JavaScript's default
`Array.prototype.sort` compares strings. -/
def charListLe : List Char → List Char → Bool
  | [], _ => true
  | _ :: _, [] => false
  | c :: cs, d :: ds =>
    if c.toNat < d.toNat then true
    else if d.toNat < c.toNat then false
    else charListLe cs ds

def strLe (a b : String) : Bool := charListLe a.data b.data

def strLeProp (a b : String) : Prop := strLe a b = true

instance : DecidableRel strLeProp :=
  fun a b => inferInstanceAs (Decidable (strLe a b = true))

theorem charListLe_total : ∀ (a b : List Char),
    charListLe a b = true ∨ charListLe b a = true := by
  intro a
  induction a with
  | nil => intro b; left; rfl
  | cons c cs ih =>
    intro b
    cases b with
    | nil => right; rfl
    | cons d ds =>
      by_cases h1 : c.toNat < d.toNat
      · left
        simp [charListLe, h1]
      · by_cases h2 : d.toNat < c.toNat
        · right
          simp [charListLe, h2]
        · have hcd : ¬d.toNat < c.toNat := h2
          rcases ih ds with h | h
          · left
            simp [charListLe, h1, h2, h]
          · right
            simp [charListLe, h1, h2, h]

theorem charListLe_trans : ∀ (a b c : List Char),
    charListLe a b = true → charListLe b c = true →
    charListLe a c = true := by
  intro a
  induction a with
  | nil => intro b c _ _; rfl
  | cons x xs ih =>
    intro b c hab hbc
    cases b with
    | nil => simp [charListLe] at hab
    | cons y ys =>
      cases c with
      | nil => simp [charListLe] at hbc
      | cons z zs =>
        simp only [charListLe] at hab hbc ⊢
        by_cases hxy : x.toNat < y.toNat <;>
          by_cases hyz : y.toNat < z.toNat <;>
          by_cases hyx : y.toNat < x.toNat <;>
          by_cases hzy : z.toNat < y.toNat <;>
          by_cases hxz : x.toNat < z.toNat <;>
          by_cases hzx : z.toNat < x.toNat <;>
          simp_all <;>
          first
            | omega
            | exact Or.inr (ih ys zs hab hbc)

instance : IsTotal String strLeProp :=
  ⟨fun a b => charListLe_total a.data b.data⟩

instance : IsTrans String strLeProp :=
  ⟨fun a b c => charListLe_trans a.data b.data c.data⟩

def survivingPointers (fuel : Nat) (doc : JsonSchema) : List String :=
  (scanSchema fuel doc).entries.map Prod.fst

/-- `Array.from(allRegistered.keys()).sort()` — lexicographic sort. -/
def sortedPointers (fuel : Nat) (doc : JsonSchema) : List String :=
  List.insertionSort strLeProp (survivingPointers fuel doc)

/-- The generation loop: for each pointer in sorted order, resolve the
fragment and emit a declaration when the fragment is truthy. -/
def genLoop (doc : JsonSchema) (reg : RegState) (fuel : Nat) :
    List String → Option (List GeneratedType)
  | [] => some []
  | p :: ps =>
    let typeName := (regGet reg p).getD ""
    match resolvePointer doc p with
    | some frag =>
      if jvalTruthy frag then do
        let r ← generateTypeDefinition fuel typeName (asSchema frag) doc
          (some reg) p
        let rest ← genLoop doc reg fuel ps
        pure (r :: rest)
      else genLoop doc reg fuel ps
    | none => genLoop doc reg fuel ps

/-- One document's pipeline: scan, then generate per surviving sorted
pointer.  `none` models only an exhausted fuel budget; the source has no
other failure outcome (no cycle error exists anywhere in it). -/
def processSchema (fuel : Nat) (doc : JsonSchema) :
    Option (List GeneratedType) :=
  genLoop doc (scanSchema fuel doc) fuel (sortedPointers fuel doc)

/-- The pointers that actually contribute a declaration: surviving
registry entries whose pointer resolves to a truthy fragment. -/
def emittedPointers (fuel : Nat) (doc : JsonSchema) : List String :=
  (sortedPointers fuel doc).filter (fun p =>
    match resolvePointer doc p with
    | some frag => jvalTruthy frag
    | none => false)

/-- The declaration names those pointers receive. -/
def emittedNames (fuel : Nat) (doc : JsonSchema) : List String :=
  (emittedPointers fuel doc).map
    (fun p => (regGet (scanSchema fuel doc) p).getD "")

/-! ## Registry lemmas -/

theorem lookupAssoc_append {α : Type} (l l' : List (String × α)) (k : String) :
    lookupAssoc (l ++ l') k =
      match lookupAssoc l k with
      | some v => some v
      | none => lookupAssoc l' k := by
  induction l with
  | nil => simp [lookupAssoc]
  | cons hd tl ih =>
    obtain ⟨a, b⟩ := hd
    by_cases h : a = k <;> simp [lookupAssoc, h, ih]

/-- C8 (claim): registering an already-registered pointer returns the name
stored for that pointer — the one assigned at its first registration — with
any second name ignored, and leaves the registry state unchanged; in
particular an immediate double registration is idempotent. -/
theorem register_idempotent :
    (∀ (s : RegState) (p : String) (e : RegEntry) (n : String),
        lookupAssoc s.entries p = some e → register s p n = (e.name, s)) ∧
    (∀ (s : RegState) (p n1 n2 : String),
        register (register s p n1).2 p n2 =
          ((register s p n1).1, (register s p n1).2)) := by
  constructor
  · intro s p e n h
    simp [register, h]
  · intro s p n1 n2
    match hl : lookupAssoc s.entries p with
    | some e =>
      simp [register, hl]
    | none =>
      have hstep :
          register s p n1 =
            ((getUniqueTypeName s n1).1,
             { (getUniqueTypeName s n1).2 with
                entries := (getUniqueTypeName s n1).2.entries ++
                  [(p, ⟨(getUniqueTypeName s n1).1, n1⟩)] }) := by
        simp [register, hl]
      have hents : (getUniqueTypeName s n1).2.entries = s.entries := rfl
      rw [hstep]
      simp only [register, lookupAssoc_append, hents, hl, lookupAssoc, ite_true,
        if_pos rfl]

/-- C8 witness: re-registering `"p"` (registered as `"A"`) under `"B"`
returns `"A"` and the untouched registry. -/
theorem register_idempotent_witness :
    register ⟨[("p", ⟨"A", "A"⟩)], [("A", 1)]⟩ "p" "B" =
      ("A", ⟨[("p", ⟨"A", "A"⟩)], [("A", 1)]⟩) :=
  register_idempotent.1 ⟨[("p", ⟨"A", "A"⟩)], [("A", 1)]⟩ "p" ⟨"A", "A"⟩ "B"
    (by decide)

/-- C4 (claim): building a reference to a pointer registered under a truthy
name returns exactly the stored assigned name — the post-collision `name`
field, never the `baseName` field — without recursing. -/
theorem buildReferenceType_registered
    (bt : TypeBuildContext → Option String) (ref : String)
    (rootSchema : JsonSchema) (reg : RegState) (e : RegEntry)
    (h : lookupAssoc reg.entries ref = some e) (hn : e.name ≠ "") :
    buildReferenceType bt ref rootSchema (some reg) = some e.name := by
  simp [buildReferenceType, regGet, truthyStr, h, hn]

/-- C4 witness: a pointer registered with suffixed assigned name
`"Status_1"` (base name `"Status"`) resolves to `"Status_1"`. -/
theorem buildReferenceType_registered_witness :
    buildReferenceType (fun _ => none) "#/definitions/x" emptySchema
      (some ⟨[("#/definitions/x", ⟨"Status_1", "Status"⟩)], [("Status", 2)]⟩) =
      some "Status_1" :=
  buildReferenceType_registered (fun _ => none) "#/definitions/x" emptySchema
    ⟨[("#/definitions/x", ⟨"Status_1", "Status"⟩)], [("Status", 2)]⟩
    ⟨"Status_1", "Status"⟩ (by decide) (by decide)


/-! ## The declaration decider, restated from the specification -/

/-- The alias condition exactly as the specification words it: enum or a
defined const; type string/number/boolean/array; type a list; any of
oneOf/anyOf/allOf; an intersection separator in the built expression; type
not exactly `"object"`; or the expression not literally beginning with an
object-body opening brace. -/
def specAliasCondition (schema : JsonSchema) (typeDefinition : String) : Prop :=
  schema.enum.isSome = true ∨
  schema.const.isSome = true ∨
  (∃ t, schema.type = some (.single t) ∧
    (t = "string" ∨ t = "number" ∨ t = "boolean" ∨ t = "array")) ∨
  (∃ l, schema.type = some (.list l)) ∨
  schema.oneOf.isSome = true ∨
  schema.anyOf.isSome = true ∨
  schema.allOf.isSome = true ∨
  strContains typeDefinition " & " = true ∨
  schema.type ≠ some (.single "object") ∨
  strStartsWith typeDefinition "\x7b" = false

/-- C6 (claim): the decider chooses the alias form exactly when the
specification's disjunction holds, and the structural form otherwise. -/
theorem shouldUseTypeAlias_iff_spec (schema : JsonSchema)
    (typeDefinition : String) :
    shouldUseTypeAlias schema typeDefinition = true ↔
      specAliasCondition schema typeDefinition := by
  unfold shouldUseTypeAlias specAliasCondition
  split_ifs with h1 h2 h3 h4 h5 h6
  · simp only [true_iff]
    simp only [Bool.or_eq_true] at h1
    rcases h1 with h | h
    · exact Or.inl h
    · exact Or.inr (Or.inl h)
  · simp only [true_iff]
    refine Or.inr (Or.inr (Or.inl ?_))
    rcases htype : schema.type with _ | t
    · rw [htype] at h2; simp at h2
    · rcases t with t | l
      · rw [htype] at h2
        simp only [Bool.or_eq_true, decide_eq_true_eq] at h2
        exact ⟨t, rfl, by tauto⟩
      · rw [htype] at h2; simp at h2
  · simp only [true_iff]
    refine Or.inr (Or.inr (Or.inr (Or.inl ?_)))
    rcases htype : schema.type with _ | t
    · rw [htype] at h3; simp at h3
    · rcases t with t | l
      · rw [htype] at h3; simp at h3
      · exact ⟨l, rfl⟩
  · simp only [true_iff]
    simp only [Bool.or_eq_true] at h4
    rcases h4 with (h | h) | h
    · exact Or.inr (Or.inr (Or.inr (Or.inr (Or.inl h))))
    · exact Or.inr (Or.inr (Or.inr (Or.inr (Or.inr (Or.inl h)))))
    · exact Or.inr (Or.inr (Or.inr (Or.inr (Or.inr (Or.inr (Or.inl h))))))
  · simp only [true_iff]
    exact Or.inr (Or.inr (Or.inr (Or.inr (Or.inr (Or.inr (Or.inr (Or.inl h5)))))))
  · simp only [true_iff]
    simp only [Bool.or_eq_true, bne_iff_ne, ne_eq, Bool.not_eq_true'] at h6
    rcases h6 with h | h
    · exact Or.inr (Or.inr (Or.inr (Or.inr (Or.inr (Or.inr (Or.inr
        (Or.inr (Or.inl h))))))))
    · exact Or.inr (Or.inr (Or.inr (Or.inr (Or.inr (Or.inr (Or.inr
        (Or.inr (Or.inr h))))))))
  · simp only [false_iff]
    intro hdis
    simp only [Bool.or_eq_true, not_or] at h1 h4
    simp only [Bool.or_eq_true, not_or, bne_iff_ne, ne_eq, Bool.not_eq_true',
      not_not] at h6
    rcases hdis with h | h | h | h | h | h | h | h | h | h
    · exact h1.1 h
    · exact h1.2 h
    · obtain ⟨t, ht, hcase⟩ := h
      apply h2
      rw [ht]
      simp only [Bool.or_eq_true, decide_eq_true_eq]
      tauto
    · obtain ⟨l, hl⟩ := h
      apply h3
      rw [hl]
    · exact h4.1.1 h
    · exact h4.1.2 h
    · exact h4.2 h
    · exact h5 h
    · exact h h6.1
    · exact h6.2 h

/-! ## Congruence of the sub-builders in the context's unread fields -/

theorem createChildContext_congr (c1 c2 : TypeBuildContext)
    (hroot : c1.rootSchema = c2.rootSchema) (hreg : c1.registry = c2.registry)
    (hptr : c1.pointer = c2.pointer) (s : JsonSchema) (sfx : String) :
    createChildContext c1 s sfx = createChildContext c2 s sfx := by
  simp [createChildContext, hroot, hreg, hptr]

theorem buildPropLines_congr (bt : TypeBuildContext → Option String)
    (c1 c2 : TypeBuildContext) (s1 s2 : JsonSchema)
    (hr : s1.required = s2.required)
    (hroot : c1.rootSchema = c2.rootSchema) (hreg : c1.registry = c2.registry)
    (hptr : c1.pointer = c2.pointer) :
    ∀ props, buildPropLines bt c1 s1 props = buildPropLines bt c2 s2 props := by
  intro props
  induction props with
  | nil => rfl
  | cons hd tl ih =>
    obtain ⟨key, propSchema⟩ := hd
    simp only [buildPropLines, hr,
      createChildContext_congr c1 c2 hroot hreg hptr, ih]

theorem buildObjectType_congr (bt : TypeBuildContext → Option String)
    (s1 s2 : JsonSchema) (c1 c2 : TypeBuildContext)
    (hp : s1.properties = s2.properties) (hr : s1.required = s2.required)
    (hap : s1.additionalProperties = s2.additionalProperties)
    (hroot : c1.rootSchema = c2.rootSchema) (hreg : c1.registry = c2.registry)
    (hptr : c1.pointer = c2.pointer) :
    buildObjectType bt s1 c1 = buildObjectType bt s2 c2 := by
  simp only [buildObjectType, hp, hap,
    buildPropLines_congr bt c1 c2 s1 s2 hr hroot hreg hptr,
    createChildContext_congr c1 c2 hroot hreg hptr]

theorem buildTupleTypes_congr (bt : TypeBuildContext → Option String)
    (c1 c2 : TypeBuildContext)
    (hroot : c1.rootSchema = c2.rootSchema) (hreg : c1.registry = c2.registry)
    (hptr : c1.pointer = c2.pointer) :
    ∀ (i : Nat) (l : List JsonSchema),
      buildTupleTypes bt c1 i l = buildTupleTypes bt c2 i l := by
  intro i l
  induction l generalizing i with
  | nil => rfl
  | cons hd tl ih =>
    simp only [buildTupleTypes,
      createChildContext_congr c1 c2 hroot hreg hptr, ih]

theorem buildArrayType_congr (bt : TypeBuildContext → Option String)
    (s1 s2 : JsonSchema) (c1 c2 : TypeBuildContext)
    (hi : s1.items = s2.items)
    (hroot : c1.rootSchema = c2.rootSchema) (hreg : c1.registry = c2.registry)
    (hptr : c1.pointer = c2.pointer) :
    buildArrayType bt s1 c1 = buildArrayType bt s2 c2 := by
  simp only [buildArrayType, hi,
    buildTupleTypes_congr bt c1 c2 hroot hreg hptr,
    createChildContext_congr c1 c2 hroot hreg hptr]

theorem buildTypeRest_congr (bt : TypeBuildContext → Option String)
    (c1 c2 : TypeBuildContext) (comb : Option String)
    (hp : c1.schema.properties = c2.schema.properties)
    (hr : c1.schema.required = c2.schema.required)
    (hap : c1.schema.additionalProperties = c2.schema.additionalProperties)
    (hty : c1.schema.type = c2.schema.type)
    (hc : c1.schema.const = c2.schema.const)
    (he : c1.schema.enum = c2.schema.enum)
    (hi : c1.schema.items = c2.schema.items)
    (hroot : c1.rootSchema = c2.rootSchema) (hreg : c1.registry = c2.registry)
    (hptr : c1.pointer = c2.pointer) :
    buildTypeRest bt c1 comb = buildTypeRest bt c2 comb := by
  simp only [buildTypeRest, hasObjectDefinition, hp, hap, hty, hc, he,
    buildObjectType_congr bt c1.schema c2.schema c1 c2 hp hr hap hroot hreg hptr,
    buildArrayType_congr bt c1.schema c2.schema c1 c2 hi hroot hreg hptr]

/-! ## Removing the `allOf` facet -/

/-- The schema with its `allOf` facet replaced. -/
def setAllOf (s : JsonSchema) (a : Option (List JsonSchema)) : JsonSchema :=
  match s with
  | .mk t d ty p r i ap e c _ an oo df dfs rf ex =>
    .mk t d ty p r i ap e c a an oo df dfs rf ex

theorem setAllOf_allOf (s : JsonSchema) (a : Option (List JsonSchema)) :
    (setAllOf s a).allOf = a := by cases s; rfl

theorem setAllOf_oneOf (s : JsonSchema) (a : Option (List JsonSchema)) :
    (setAllOf s a).oneOf = s.oneOf := by cases s; rfl

theorem setAllOf_anyOf (s : JsonSchema) (a : Option (List JsonSchema)) :
    (setAllOf s a).anyOf = s.anyOf := by cases s; rfl

theorem setAllOf_ref (s : JsonSchema) (a : Option (List JsonSchema)) :
    (setAllOf s a).ref = s.ref := by cases s; rfl

theorem setAllOf_type (s : JsonSchema) (a : Option (List JsonSchema)) :
    (setAllOf s a).type = s.type := by cases s; rfl

theorem setAllOf_properties (s : JsonSchema) (a : Option (List JsonSchema)) :
    (setAllOf s a).properties = s.properties := by cases s; rfl

theorem setAllOf_required (s : JsonSchema) (a : Option (List JsonSchema)) :
    (setAllOf s a).required = s.required := by cases s; rfl

theorem setAllOf_additionalProperties (s : JsonSchema)
    (a : Option (List JsonSchema)) :
    (setAllOf s a).additionalProperties = s.additionalProperties := by
  cases s; rfl

theorem setAllOf_enum (s : JsonSchema) (a : Option (List JsonSchema)) :
    (setAllOf s a).enum = s.enum := by cases s; rfl

theorem setAllOf_const (s : JsonSchema) (a : Option (List JsonSchema)) :
    (setAllOf s a).const = s.const := by cases s; rfl

theorem setAllOf_items (s : JsonSchema) (a : Option (List JsonSchema)) :
    (setAllOf s a).items = s.items := by cases s; rfl

/-! ## Concrete schemas used as inputs below -/

def strSchema : JsonSchema :=
  .mk none none (some (.single "string")) none none none none none none none
    none none none none none none

def strOrNullSchema : JsonSchema :=
  .mk none none (some (.list ["string", "null"])) none none none none none
    none none none none none none none none

def c9TupleSchema : JsonSchema :=
  .mk none none (some (.single "array")) none none
    (some (.inr [strSchema, strOrNullSchema])) none none none none none none
    none none none none

/-- C9 (claim): a fragment with `type: "array"` and a list-valued `items`
facet builds to the tuple expression `[T0, T1, …]`, each member built in
declared order and inserted verbatim — no parenthesization. -/
theorem buildTypeFromSchema_tuple (fuel : Nat) (ctx : TypeBuildContext)
    (l : List JsonSchema) (ts : List String)
    (hlk : ctx.lookupInRegistry = false)
    (href : ctx.schema.ref = none)
    (h1 : ctx.schema.oneOf = none) (h2 : ctx.schema.anyOf = none)
    (h3 : ctx.schema.allOf = none)
    (hp : ctx.schema.properties = none)
    (hap : ctx.schema.additionalProperties = none)
    (hc : ctx.schema.const = none) (he : ctx.schema.enum = none)
    (ht : ctx.schema.type = some (.single "array"))
    (hi : ctx.schema.items = some (.inr l))
    (hts : buildTupleTypes (buildTypeFromSchema fuel) ctx 0 l = some ts) :
    buildTypeFromSchema (fuel + 1) ctx =
      some ("[" ++ String.intercalate ", " ts ++ "]") := by
  simp [buildTypeFromSchema, buildTypeCore, buildTypeRest, hasObjectDefinition,
    truthyStr, apTruthy, buildArrayType, hlk, href, h1, h2, h3, hp, hap, hc,
    he, ht, hi, hts]

/-- C9 witness: `[string, string | null]` — the second member keeps its
bare union, unpatenthesized, inside the tuple. -/
theorem buildTypeFromSchema_tuple_witness :
    buildTypeFromSchema 2 ⟨c9TupleSchema, emptySchema, none, "#", false⟩ =
      some "[string, string | null]" := by
  have h := buildTypeFromSchema_tuple 1
    ⟨c9TupleSchema, emptySchema, none, "#", false⟩
    [strSchema, strOrNullSchema] ["string", "string | null"]
    rfl rfl rfl rfl rfl rfl rfl rfl rfl rfl rfl (by decide)
  simpa using h

/-! ## Pointwise characterisation of indexed member building -/

theorem buildListIdx_get (bt : TypeBuildContext → Option String)
    (pctx : TypeBuildContext) (pfx : String) :
    ∀ (ss : List JsonSchema) (i : Nat) (ts : List String),
      buildListIdx bt pctx pfx i ss = some ts →
      ts.length = ss.length ∧
      ∀ j sj, ss.get? j = some sj →
        bt (createChildContext pctx sj (pfx ++ "/" ++ natToDecimal (i + j))) =
          ts.get? j := by
  intro ss
  induction ss with
  | nil =>
    intro i ts h
    simp only [buildListIdx] at h
    cases h
    exact ⟨rfl, fun j sj hj => by simp at hj⟩
  | cons s rest ih =>
    intro i ts h
    simp only [buildListIdx, Option.bind_eq_bind] at h
    cases hbt : bt (createChildContext pctx s (pfx ++ "/" ++ natToDecimal i)) with
    | none => rw [hbt] at h; simp at h
    | some t =>
      rw [hbt] at h
      simp only [Option.some_bind] at h
      cases hrest : buildListIdx bt pctx pfx (i + 1) rest with
      | none => rw [hrest] at h; simp at h
      | some ts' =>
        rw [hrest] at h
        simp only [Option.some_bind] at h
        cases h
        obtain ⟨hlen, hpt⟩ := ih (i + 1) ts' hrest
        refine ⟨by simp [hlen], ?_⟩
        intro j sj hj
        cases j with
        | zero =>
          simp only [List.get?] at hj
          cases hj
          simpa [Nat.add_zero] using hbt
        | succ k =>
          simp only [List.get?] at hj
          have := hpt k sj hj
          have harith : i + (k + 1) = i + 1 + k := by omega
          rw [harith]
          simpa using this


/-- C7 (claim): `allOf` builds every member in declared order at its
`allOf/i` child pointer; exactly the members whose result is the
unknown/universal placeholder (`'any'`/`'unknown'`) are discarded; the
remainder is joined with ` & `; and when every member is discarded the
`allOf` contributes nothing — the build result equals that of the same
schema without its `allOf` facet. -/
theorem allOf_intersection_spec :
    (∀ (bt : TypeBuildContext → Option String) (schemas : List JsonSchema)
        (pctx : TypeBuildContext) (ts : List String),
        buildListIdx bt pctx "allOf" 0 schemas = some ts →
        buildIntersectionType bt schemas pctx =
          some (if (ts.filter (fun t => t != "any" && t != "unknown")).isEmpty
                then none
                else some (String.intercalate " & "
                  (ts.filter (fun t => t != "any" && t != "unknown"))))) ∧
    (∀ (bt : TypeBuildContext → Option String) (schemas : List JsonSchema)
        (pctx : TypeBuildContext) (ts : List String),
        buildListIdx bt pctx "allOf" 0 schemas = some ts →
        ∀ j sj, schemas.get? j = some sj →
          bt (createChildContext pctx sj ("allOf" ++ "/" ++ natToDecimal j)) =
            ts.get? j) ∧
    (∀ (fuel : Nat) (ctx : TypeBuildContext) (l : List JsonSchema)
        (ts : List String),
        ctx.schema.oneOf = none → ctx.schema.anyOf = none →
        ctx.schema.allOf = some l →
        buildListIdx (buildTypeFromSchema fuel) ctx "allOf" 0 l = some ts →
        (∀ t ∈ ts, t = "any" ∨ t = "unknown") →
        buildTypeFromSchema (fuel + 1) ctx =
          buildTypeFromSchema (fuel + 1)
            ⟨setAllOf ctx.schema none, ctx.rootSchema, ctx.registry,
             ctx.pointer, ctx.lookupInRegistry⟩) := by
  refine ⟨?_, ?_, ?_⟩
  · intro bt schemas pctx ts h
    simp only [buildIntersectionType, h, Option.bind_eq_bind, Option.some_bind,
      Option.pure_def]
    by_cases hemp : (ts.filter (fun t => t != "any" && t != "unknown")).isEmpty
    · rw [if_pos hemp, if_pos hemp]
    · rw [if_neg hemp, if_neg hemp]
  · intro bt schemas pctx ts h j sj hj
    have hpt := (buildListIdx_get bt pctx "allOf" schemas 0 ts h).2 j sj hj
    simpa using hpt
  · intro fuel ctx l ts h1 h2 h3 hts hall
    obtain ⟨schema, root, reg, ptr, lkp⟩ := ctx
    have hfil : ts.filter (fun t => t != "any" && t != "unknown") = [] := by
      rw [List.filter_eq_nil_iff]
      intro a ha
      rcases hall a ha with h | h <;> simp [h]
    have hint : buildIntersectionType (buildTypeFromSchema fuel) l
        ⟨schema, root, reg, ptr, lkp⟩ = some none := by
      simp only [buildIntersectionType, hts, Option.bind_eq_bind,
        Option.some_bind, hfil, List.isEmpty_nil, if_true, Option.pure_def]
    simp only at h1 h2 h3
    simp only [buildTypeFromSchema, buildTypeCore, setAllOf_ref, setAllOf_oneOf,
      setAllOf_anyOf, setAllOf_allOf, h1, h2, h3, hint, Option.bind_eq_bind,
      Option.some_bind, Option.pure_def]
    rcases hq : (if lkp = true then reg.bind fun a => truthyStr (regGet a ptr)
        else none) with _ | n
    · rcases hr : truthyStr schema.ref with _ | r
      · exact buildTypeRest_congr (buildTypeFromSchema fuel)
          ⟨schema, root, reg, ptr, lkp⟩
          ⟨setAllOf schema none, root, reg, ptr, lkp⟩ none
          (setAllOf_properties schema none).symm
          (setAllOf_required schema none).symm
          (setAllOf_additionalProperties schema none).symm
          (setAllOf_type schema none).symm
          (setAllOf_const schema none).symm
          (setAllOf_enum schema none).symm
          (setAllOf_items schema none).symm rfl rfl rfl
      · rfl
    · rfl

/-- A schema whose `allOf` members all build to the placeholder, alongside a
primitive `type` facet. -/
def c7AllOfSchema : JsonSchema :=
  .mk none none (some (.single "string")) none none none none none none
    (some [emptySchema]) none none none none none none

/-- C7 witness: `allOf: [{type: "string"}, {}]` keeps only `string`; and a
schema whose single `allOf` member builds to `any` produces the same
expression as the schema without the `allOf`. -/
theorem allOf_intersection_spec_witness :
    buildIntersectionType (buildTypeFromSchema 1) [strSchema, emptySchema]
        ⟨emptySchema, emptySchema, none, "#", false⟩ = some (some "string") ∧
    buildTypeFromSchema 2 ⟨c7AllOfSchema, emptySchema, none, "#", false⟩ =
      buildTypeFromSchema 2
        ⟨setAllOf c7AllOfSchema none, emptySchema, none, "#", false⟩ := by
  constructor
  · rw [allOf_intersection_spec.1 (buildTypeFromSchema 1)
      [strSchema, emptySchema] ⟨emptySchema, emptySchema, none, "#", false⟩
      ["string", "any"] (by decide)]
    decide
  · exact allOf_intersection_spec.2.2 1
      ⟨c7AllOfSchema, emptySchema, none, "#", false⟩ [emptySchema] ["any"]
      rfl rfl rfl (by decide) (by decide)


/-! ## Pass-3 deletion characterisation -/

theorem truthyStr_eq_some (o : Option String) (s : String) :
    truthyStr o = some s ↔ o = some s ∧ s ≠ "" := by
  cases o with
  | none => simp [truthyStr]
  | some t =>
    simp only [truthyStr, Option.some_bind]
    by_cases h : t = ""
    · subst h
      rw [if_pos rfl]
      constructor
      · intro hq
        cases hq
      · rintro ⟨hq, hne⟩
        cases hq
        exact absurd rfl hne
    · rw [if_neg h]
      constructor
      · intro hq
        refine ⟨hq, ?_⟩
        cases hq
        exact h
      · exact fun hq => hq.1

/-- The per-iteration deletion condition of pass 3, as the amended claim
states it: the fragment resolves truthy and carries a nonempty internal
`$ref` facet — not necessarily alone — whose target is registered under a
truthy name, and the two truthy base names coincide. -/
def cleanupDeleteCondition (schema : JsonSchema) (reg : RegState)
    (pointer : String) : Prop :=
  ∃ frag r base,
    resolvePointer schema pointer = some frag ∧
    jvalTruthy frag = true ∧
    (asSchema frag).ref = some r ∧ r ≠ "" ∧
    strStartsWith r "#" = true ∧
    (truthyStr (regGet reg r)).isSome = true ∧
    truthyStr (regGetBaseName reg pointer) = some base ∧
    truthyStr (regGetBaseName reg r) = some base

theorem cleanupOne_iff_aux (schema : JsonSchema) (reg : RegState) (p : String)
    (hreg : (lookupAssoc reg.entries p).isSome = true) :
    lookupAssoc (cleanupOne schema reg p).entries p = none ↔
      cleanupDeleteCondition schema reg p := by
  constructor
  · intro hdel
    unfold cleanupOne at hdel
    cases hres : resolvePointer schema p with
    | none =>
      simp only [hres] at hdel
      rw [hdel] at hreg
      simp at hreg
    | some frag =>
      simp only [hres] at hdel
      by_cases htr : jvalTruthy frag = true
      · simp only [htr, if_true] at hdel
        cases href : truthyStr (asSchema frag).ref with
        | none =>
          simp only [href] at hdel
          rw [hdel] at hreg
          simp at hreg
        | some r =>
          simp only [href] at hdel
          by_cases hst : strStartsWith r "#" = true
          · simp only [hst, Bool.not_true, Bool.false_eq_true, if_false] at hdel
            cases htgt : truthyStr (regGet reg r) with
            | none =>
              simp only [htgt] at hdel
              rw [hdel] at hreg
              simp at hreg
            | some tn =>
              simp only [htgt] at hdel
              cases hmb : truthyStr (regGetBaseName reg p) with
              | none =>
                simp only [hmb] at hdel
                rw [hdel] at hreg
                simp at hreg
              | some mb =>
                cases htb : truthyStr (regGetBaseName reg r) with
                | none =>
                  simp only [hmb, htb] at hdel
                  rw [hdel] at hreg
                  simp at hreg
                | some tb =>
                  simp only [hmb, htb] at hdel
                  by_cases heq : mb = tb
                  · obtain ⟨href', hrne⟩ := (truthyStr_eq_some _ _).mp href
                    subst heq
                    exact ⟨frag, r, mb, hres, htr, href', hrne, hst,
                      by simp [htgt], hmb, htb⟩
                  · simp only [if_neg heq] at hdel
                    rw [hdel] at hreg
                    simp at hreg
          · rw [Bool.not_eq_true] at hst
            simp only [hst, Bool.not_false, if_true] at hdel
            rw [hdel] at hreg
            simp at hreg
      · simp only [if_neg htr] at hdel
        rw [hdel] at hreg
        simp at hreg
  · rintro ⟨frag, r, base, hres, htr, href, hrne, hst, htgt, hmb, htb⟩
    unfold cleanupOne
    rw [hres]
    simp only [htr, if_true, (truthyStr_eq_some _ _).mpr ⟨href, hrne⟩, hst,
      Bool.not_true, Bool.false_eq_true, if_false]
    cases htn : truthyStr (regGet reg r) with
    | none => rw [htn] at htgt; simp at htgt
    | some tn =>
      simp only [htn, hmb, htb, if_pos rfl]
      simp [regDelete, lookupAssoc_eraseAssoc]

/-- A fragment that is solely a `$ref`. -/
def c5PropRefFrag : JsonSchema :=
  .mk none none none none none none none none none none none none none none
    (some "#/definitions/status") none

/-- A property that is solely a `$ref` whose derived base name coincides
with the target definition's. -/
def c5ScenarioDoc : JsonSchema :=
  .mk none none none (some [("status", c5PropRefFrag)]) none none none none
    none none none none (some [("status", strSchema)]) none none none

/-- The registry state after passes 1 and 2 on `c5ScenarioDoc`. -/
def c5Reg : RegState :=
  registerMissingReferences
    (traverse 10 c5ScenarioDoc "#" "" ⟨emptyReg, []⟩).refs
    (traverse 10 c5ScenarioDoc "#" "" ⟨emptyReg, []⟩).reg

/-- C5 (amended): at its turn in the pass-3 loop, a registered pointer is
deleted iff its fragment resolves truthy and carries an internal `$ref`
facet (not necessarily alone) to a pointer registered at that moment, with
equal truthy base names; and in the claim's scenario, the pure-`$ref`
property has no alias entry after the scan and its type expression resolves
directly to `Status`. -/
theorem cleanupOne_deletes_iff :
    (∀ (schema : JsonSchema) (reg : RegState) (p : String),
        (lookupAssoc reg.entries p).isSome = true →
        (lookupAssoc (cleanupOne schema reg p).entries p = none ↔
          cleanupDeleteCondition schema reg p)) ∧
    lookupAssoc (scanSchema 10 c5ScenarioDoc).entries "#/properties/status" =
      none ∧
    buildTypeFromSchema 5
      ⟨c5PropRefFrag, c5ScenarioDoc, some (scanSchema 10 c5ScenarioDoc),
       "#/properties/status", true⟩ = some "Status" :=
  ⟨cleanupOne_iff_aux, by decide, by decide⟩

/-- C5 witness: applying the characterisation to the scenario document's
pass-2 registry deletes the redundant alias. -/
theorem cleanupOne_deletes_iff_witness :
    lookupAssoc (cleanupOne c5ScenarioDoc c5Reg "#/properties/status").entries
      "#/properties/status" = none :=
  (cleanupOne_deletes_iff.1 c5ScenarioDoc c5Reg "#/properties/status"
      (by decide)).mpr
    ⟨JVal.sch c5PropRefFrag, "#/definitions/status", "Status", rfl, rfl, rfl,
     by decide, rfl, by decide, by decide, by decide⟩

/-- A fragment carrying a `$ref` *and* a `type` facet — not "exactly a
reference". -/
def c5ExtraFacetFrag : JsonSchema :=
  .mk none none (some (.single "string")) none none none none none none none
    none none none none (some "#/definitions/status") none

def c5ExtraFacetDoc : JsonSchema :=
  .mk none none none (some [("status", c5ExtraFacetFrag)]) none none none
    none none none none none (some [("status", strSchema)]) none none none

/-- C5 counterexample to the claim as stated: the property's fragment has a
`type` facet besides its `$ref` — it is not *exactly* a reference — it was
registered by passes 1–2, yet pass 3 still deletes it. -/
theorem cleanup_extra_facet_counterexample :
    (lookupAssoc
        (registerMissingReferences
          (traverse 10 c5ExtraFacetDoc "#" "" ⟨emptyReg, []⟩).refs
          (traverse 10 c5ExtraFacetDoc "#" "" ⟨emptyReg, []⟩).reg).entries
        "#/properties/status").isSome = true ∧
    (resolvePointer c5ExtraFacetDoc "#/properties/status").map
      (fun v => ((asSchema v).ref.isSome, (asSchema v).type.isSome)) =
      some (true, true) ∧
    lookupAssoc (scanSchema 10 c5ExtraFacetDoc).entries "#/properties/status" =
      none := by
  refine ⟨by decide, by decide, by decide⟩

/-! ## Registry name-uniqueness invariant -/

theorem string_eq_of_data_eq (a b : String) (h : a.data = b.data) : a = b :=
  congrArg String.mk h

/-- `suffixName base` is injective in the counter. -/
theorem suffixName_inj (b : String) (c c' : Nat)
    (h : suffixName b c = suffixName b c') : c = c' := by
  unfold suffixName at h
  by_cases h0 : c = 0 <;> by_cases h0' : c' = 0
  · omega
  · rw [if_pos h0, if_neg h0'] at h
    have hlen := congrArg String.length h
    rw [String.length_append, String.length_append] at hlen
    have hpos := natToDecimal_length_pos c'
    have h1 : ("_" : String).length = 1 := rfl
    omega
  · rw [if_neg h0, if_pos h0'] at h
    have hlen := congrArg String.length h
    rw [String.length_append, String.length_append] at hlen
    have hpos := natToDecimal_length_pos c
    have h1 : ("_" : String).length = 1 := rfl
    omega
  · rw [if_neg h0, if_neg h0'] at h
    have hd := congrArg String.data h
    rw [String.data_append, String.data_append, String.data_append,
      String.data_append, List.append_assoc, List.append_assoc] at hd
    have hd2 := List.append_cancel_left hd
    have hd3 := List.append_cancel_left hd2
    exact natToDecimal_injective (string_eq_of_data_eq _ _ hd3)

/-- The per-base counter (`typeNameCount.get(base) || 0`). -/
def countOf (s : RegState) (base : String) : Nat :=
  (lookupAssoc s.counts base).getD 0

/-- The registry invariant: every entry's name is its base name suffixed by
a counter value below the base's current count, and entries of distinct
pointers with equal base names carry distinct assigned names. -/
def RegInv (s : RegState) : Prop :=
  (∀ pr ∈ s.entries, ∃ c, c < countOf s pr.2.baseName ∧
      pr.2.name = suffixName pr.2.baseName c) ∧
  (∀ pr1 ∈ s.entries, ∀ pr2 ∈ s.entries, pr1.1 ≠ pr2.1 →
      pr1.2.baseName = pr2.2.baseName → pr1.2.name ≠ pr2.2.name)

theorem regInv_empty : RegInv emptyReg := by
  constructor
  · intro pr hpr
    simp [emptyReg] at hpr
  · intro pr1 hpr1
    simp [emptyReg] at hpr1

theorem countOf_register_self (s : RegState) (n : String)
    (hfresh : lookupAssoc s.entries p = none) :
    countOf (register s p n).2 n = countOf s n + 1 := by
  simp [register, hfresh, getUniqueTypeName, countOf, lookupAssoc_setAssoc_self]

theorem regInv_register (s : RegState) (p n : String) (hinv : RegInv s) :
    RegInv (register s p n).2 := by
  obtain ⟨hA, hB⟩ := hinv
  cases hfresh : lookupAssoc s.entries p with
  | some e => simpa [register, hfresh] using ⟨hA, hB⟩
  | none =>
    have hstate : (register s p n).2 =
        ⟨s.entries ++ [(p, ⟨suffixName n (countOf s n), n⟩)],
         setAssoc s.counts n (countOf s n + 1)⟩ := by
      simp [register, hfresh, getUniqueTypeName, countOf]
    rw [hstate]
    have hcount : ∀ b, countOf s b ≤
        countOf ⟨s.entries ++ [(p, ⟨suffixName n (countOf s n), n⟩)],
          setAssoc s.counts n (countOf s n + 1)⟩ b := by
      intro b
      by_cases hb : b = n
      · subst hb
        simp [countOf, lookupAssoc_setAssoc_self]
      · simp [countOf, lookupAssoc_setAssoc_ne s.counts n b _
          (fun hq => hb hq.symm)]
    have hcountn : countOf ⟨s.entries ++ [(p, ⟨suffixName n (countOf s n), n⟩)],
        setAssoc s.counts n (countOf s n + 1)⟩ n = countOf s n + 1 := by
      simp [countOf, lookupAssoc_setAssoc_self]
    constructor
    · intro pr hpr
      rcases List.mem_append.mp hpr with hold | hnew
      · obtain ⟨c, hc, hname⟩ := hA pr hold
        exact ⟨c, lt_of_lt_of_le hc (hcount pr.2.baseName), hname⟩
      · simp only [List.mem_singleton] at hnew
        subst hnew
        exact ⟨countOf s n, by simp [hcountn], rfl⟩
    · intro pr1 hpr1 pr2 hpr2 hne hbase
      rcases List.mem_append.mp hpr1 with h1 | h1 <;>
        rcases List.mem_append.mp hpr2 with h2 | h2
      · exact hB pr1 h1 pr2 h2 hne hbase
      · simp only [List.mem_singleton] at h2
        subst h2
        obtain ⟨c, hc, hname⟩ := hA pr1 h1
        simp only at hbase ⊢
        rw [hname, hbase]
        intro hq
        have := suffixName_inj _ _ _ hq
        rw [hbase] at hc
        omega
      · simp only [List.mem_singleton] at h1
        subst h1
        obtain ⟨c, hc, hname⟩ := hA pr2 h2
        simp only at hbase ⊢
        rw [hname, ← hbase]
        intro hq
        have := suffixName_inj _ _ _ hq
        rw [← hbase] at hc
        omega
      · simp only [List.mem_singleton] at h1 h2
        subst h1
        subst h2
        exact absurd rfl hne

theorem mem_eraseAssoc_subset {α : Type} (l : List (String × α)) (k : String)
    (x : String × α) (hx : x ∈ eraseAssoc l k) : x ∈ l := by
  induction l with
  | nil => simp [eraseAssoc] at hx
  | cons hd tl ih =>
    obtain ⟨a, b⟩ := hd
    by_cases h : a = k
    · simp only [eraseAssoc, if_pos h] at hx
      exact List.mem_cons_of_mem _ (ih hx)
    · simp only [eraseAssoc, if_neg h] at hx
      rcases List.mem_cons.mp hx with hx | hx
      · exact hx ▸ List.mem_cons_self _ _
      · exact List.mem_cons_of_mem _ (ih hx)

theorem regInv_delete (s : RegState) (p : String) (hinv : RegInv s) :
    RegInv (regDelete s p) := by
  obtain ⟨hA, hB⟩ := hinv
  constructor
  · intro pr hpr
    exact hA pr (mem_eraseAssoc_subset s.entries p pr hpr)
  · intro pr1 hpr1 pr2 hpr2
    exact hB pr1 (mem_eraseAssoc_subset s.entries p pr1 hpr1) pr2
      (mem_eraseAssoc_subset s.entries p pr2 hpr2)

theorem regInv_applyOps (ops : List RegOp) : RegInv (applyOps ops) := by
  have hgen : ∀ (l : List RegOp) (s : RegState), RegInv s →
      RegInv (l.foldl applyOp s) := by
    intro l
    induction l with
    | nil => exact fun s h => h
    | cons op rest ih =>
      intro s h
      refine ih (applyOp s op) ?_
      cases op with
      | reg p n => exact regInv_register s p n h
      | del p => exact regInv_delete s p h
  exact hgen ops emptyReg regInv_empty


/-- Sequential fresh registrations under one base name receive the
suffixes `k`, `k+1`, … where `k` is the base's current counter. -/
theorem registerSeq_names :
    ∀ (ps : List String) (s : RegState) (N : String),
      ps.Nodup → (∀ p ∈ ps, lookupAssoc s.entries p = none) →
      (registerSeq s ps N).1 =
        (List.range ps.length).map (fun i => suffixName N (countOf s N + i)) := by
  intro ps
  induction ps with
  | nil =>
    intro s N _ _
    rfl
  | cons p rest ih =>
    intro s N hnd hfresh
    have hp : lookupAssoc s.entries p = none :=
      hfresh p (List.mem_cons_self p rest)
    have hstate : (register s p N).2 =
        ⟨s.entries ++ [(p, ⟨suffixName N (countOf s N), N⟩)],
         setAssoc s.counts N (countOf s N + 1)⟩ := by
      simp [register, hp, getUniqueTypeName, countOf]
    have hname : (register s p N).1 = suffixName N (countOf s N) := by
      simp [register, hp, getUniqueTypeName, countOf]
    have hfresh' : ∀ q ∈ rest, lookupAssoc (register s p N).2.entries q = none := by
      intro q hq
      rw [hstate]
      simp only [lookupAssoc_append]
      rw [hfresh q (List.mem_cons_of_mem p hq)]
      have hqp : ¬p = q := by
        intro hqp
        subst hqp
        exact (List.nodup_cons.mp hnd).1 hq
      simp [lookupAssoc, hqp]
    have hcount' : countOf (register s p N).2 N = countOf s N + 1 := by
      rw [hstate]
      simp [countOf, lookupAssoc_setAssoc_self]
    have hrec := ih (register s p N).2 N (List.nodup_cons.mp hnd).2 hfresh'
    rw [hcount'] at hrec
    show (registerSeq s (p :: rest) N).1 = _
    rcases hregp : register s p N with ⟨n1, s1⟩
    rw [hregp] at hname hrec
    rcases hrecp : registerSeq s1 rest N with ⟨ns, s2⟩
    rw [hrecp] at hrec
    simp only [registerSeq, hregp, hrecp]
    rw [List.length_cons, List.range_succ_eq_map, List.map_cons, List.map_map]
    refine List.cons_eq_cons.mpr ⟨?_, ?_⟩
    · have h0 : suffixName N (countOf s N) = suffixName N (countOf s N + 0) := by
        rw [Nat.add_zero]
      exact hname.trans h0
    · have hns : ns = List.map (fun i => suffixName N (countOf s N + 1 + i))
          (List.range rest.length) := hrec
      rw [hns]
      apply List.map_congr_left
      intro i hi
      simp only [Function.comp]
      congr 1
      omega

/-- C2 (amended): in every registry state reachable by register/delete
sequences, entries of distinct pointers with equal base names have distinct
assigned names; and distinct fresh pointers sequentially requesting a base
name `N` whose counter is zero receive `N`, `N_1`, `N_2`, … in registration
order (`suffixName N 0 = N`, `suffixName N k = N_k`).  Distinctness across
*different* base names does not hold in general (see the counterexample). -/
theorem registry_names_spec :
    (∀ (ops : List RegOp) (pr1 pr2 : String × RegEntry),
        pr1 ∈ (applyOps ops).entries → pr2 ∈ (applyOps ops).entries →
        pr1.1 ≠ pr2.1 → pr1.2.baseName = pr2.2.baseName →
        pr1.2.name ≠ pr2.2.name) ∧
    (∀ (ps : List String) (s : RegState) (N : String),
        countOf s N = 0 → ps.Nodup →
        (∀ p ∈ ps, lookupAssoc s.entries p = none) →
        (registerSeq s ps N).1 =
          (List.range ps.length).map (fun i => suffixName N i)) := by
  constructor
  · intro ops pr1 pr2 h1 h2 hne hbase
    exact (regInv_applyOps ops).2 pr1 h1 pr2 h2 hne hbase
  · intro ps s N hzero hnd hfresh
    rw [registerSeq_names ps s N hnd hfresh, hzero]
    simp

/-- C2 witness: on a fresh registry, three distinct pointers requesting
`"A"` receive `A`, `A_1`, `A_2`; and two same-base entries produced by a
register/delete sequence have distinct names. -/
theorem registry_names_spec_witness :
    (registerSeq emptyReg ["p", "q", "r"] "A").1 = ["A", "A_1", "A_2"] ∧
    ("A" : String) ≠ "A_1" := by
  constructor
  · rw [registry_names_spec.2 ["p", "q", "r"] emptyReg "A" (by decide)
      (by decide) (by decide)]
    decide
  · exact registry_names_spec.1 [RegOp.reg "p1" "A", RegOp.reg "p2" "A"]
      ("p1", ⟨"A", "A"⟩) ("p2", ⟨"A_1", "A"⟩) (by decide) (by decide)
      (by decide) (by decide)

/-- C2 counterexample to global uniqueness as claimed: requesting the base
names `A_1`, `A`, `A` in that order assigns the name `A_1` to two distinct
registered pointers. -/
theorem registry_collision_counterexample :
    regGet (applyOps [RegOp.reg "p1" "A_1", RegOp.reg "p2" "A",
      RegOp.reg "p3" "A"]) "p1" = some "A_1" ∧
    regGet (applyOps [RegOp.reg "p1" "A_1", RegOp.reg "p2" "A",
      RegOp.reg "p3" "A"]) "p3" = some "A_1" := by
  refine ⟨by decide, by decide⟩

/-! ## Which pointers pass 1 can register -/

theorem foldl_preserves {α σ : Type} (Q : σ → Prop) (f : σ → α → σ) :
    ∀ (l : List α), (∀ acc a, a ∈ l → Q acc → Q (f acc a)) →
      ∀ acc, Q acc → Q (l.foldl f acc) := by
  intro l
  induction l with
  | nil => exact fun _ acc h => h
  | cons x xs ih =>
    intro hstep acc h
    exact ih (fun acc a ha hq => hstep acc a (List.mem_cons_of_mem x ha) hq)
      (f acc x) (hstep acc x (List.mem_cons_self x xs) h)

theorem foldIdx_preserves {α σ : Type} (Q : σ → Prop) (f : σ → Nat → α → σ)
    (hstep : ∀ acc i a, Q acc → Q (f acc i a)) :
    ∀ (l : List α) (i : Nat) (acc : σ), Q acc → Q (foldIdx f acc i l) := by
  intro l
  induction l with
  | nil => exact fun _ acc h => h
  | cons x xs ih =>
    intro i acc h
    exact ih (i + 1) (f acc i x) (hstep acc i x h)

/-- `register` changes the lookup of no key other than its own. -/
theorem lookup_register_ne (s : RegState) (k n p : String) (h : p ≠ k) :
    lookupAssoc (register s k n).2.entries p = lookupAssoc s.entries p := by
  cases hl : lookupAssoc s.entries k with
  | some e => simp [register, hl]
  | none =>
    cases hp2 : lookupAssoc s.entries p with
    | some v => simp [register, hl, getUniqueTypeName, lookupAssoc_append, hp2]
    | none =>
      simp [register, hl, getUniqueTypeName, lookupAssoc_append, hp2,
        lookupAssoc, h, Ne.symm h]

theorem addRef_stage_reg (st : ScanState) (o : Option String) :
    (match o with | some r => addRef st r | none => st).reg = st.reg := by
  cases o with
  | none => rfl
  | some r =>
    show (addRef st r).reg = st.reg
    unfold addRef
    by_cases h : st.refs.contains r = true
    · rw [if_pos h]
    · rw [if_neg h]

theorem register_stage_lookup (st1 : ScanState) (ptr nm p : String)
    (st : ScanState)
    (hbaseq : lookupAssoc st1.reg.entries p = lookupAssoc st.reg.entries p)
    (hok : p ≠ ptr ∨ nm = "") :
    lookupAssoc (if nm = "" then st1
      else ⟨(register st1.reg ptr nm).2, st1.refs⟩).reg.entries p =
      lookupAssoc st.reg.entries p := by
  by_cases h : nm = ""
  · simpa [h] using hbaseq
  · rcases hok with hne | he
    · rw [if_neg h]
      simpa [lookup_register_ne st1.reg ptr nm p hne] using hbaseq
    · exact absurd he h

theorem traverseDefinitions_preserves (Q : ScanState → Prop)
    (rec : JsonSchema → String → String → ScanState → ScanState)
    (schema : JsonSchema) (ptr parentName p : String)
    (hrec : ∀ sub cp csug acc, p.length < cp.length → Q acc →
      Q (rec sub cp csug acc))
    (hp2 : ∀ (a b : String), 0 < a.length → p.length < (ptr ++ a ++ b).length)
    (st : ScanState) (hq : Q st) :
    Q (traverseDefinitions rec schema ptr parentName st) := by
  unfold traverseDefinitions
  cases schema.defs with
  | none =>
    cases schema.definitions with
    | none => exact hq
    | some m =>
      exact foldl_preserves Q _ m (fun acc kv _ hacc =>
        hrec kv.2 _ _ acc (hp2 "/definitions/" kv.1 (by decide)) hacc) st hq
  | some m2 =>
    refine foldl_preserves Q _ m2 (fun acc kv _ hacc =>
      hrec kv.2 _ _ acc (hp2 "/$defs/" kv.1 (by decide)) hacc) _ ?_
    cases schema.definitions with
    | none => exact hq
    | some m =>
      exact foldl_preserves Q _ m (fun acc kv _ hacc =>
        hrec kv.2 _ _ acc (hp2 "/definitions/" kv.1 (by decide)) hacc) st hq

theorem traverseProperties_preserves (Q : ScanState → Prop)
    (rec : JsonSchema → String → String → ScanState → ScanState)
    (schema : JsonSchema) (ptr parentName p : String)
    (hrec : ∀ sub cp csug acc, p.length < cp.length → Q acc →
      Q (rec sub cp csug acc))
    (hp2 : ∀ (a b : String), 0 < a.length → p.length < (ptr ++ a ++ b).length)
    (st : ScanState) (hq : Q st) :
    Q (traverseProperties rec schema ptr parentName st) := by
  unfold traverseProperties
  cases schema.properties with
  | none => exact hq
  | some props =>
    exact foldl_preserves Q _ props (fun acc kv _ hacc =>
      hrec kv.2 _ _ acc (hp2 "/properties/" kv.1 (by decide)) hacc) st hq

theorem traverseItems_preserves (Q : ScanState → Prop)
    (rec : JsonSchema → String → String → ScanState → ScanState)
    (schema : JsonSchema) (ptr parentName p : String)
    (hrec : ∀ sub cp csug acc, p.length < cp.length → Q acc →
      Q (rec sub cp csug acc))
    (hp2 : ∀ (a b : String), 0 < a.length → p.length < (ptr ++ a ++ b).length)
    (hp1 : ∀ (a : String), 0 < a.length → p.length < (ptr ++ a).length)
    (st : ScanState) (hq : Q st) :
    Q (traverseItems rec schema ptr parentName st) := by
  unfold traverseItems
  cases schema.items with
  | none => exact hq
  | some it =>
    cases it with
    | inl one => exact hrec one _ _ st (hp1 "/items" (by decide)) hq
    | inr l =>
      exact foldIdx_preserves Q _ (fun acc i item hacc =>
        hrec item _ _ acc (hp2 "/items/" (natToDecimal i) (by decide)) hacc)
        l 0 st hq

theorem traverseAdditionalProperties_preserves (Q : ScanState → Prop)
    (rec : JsonSchema → String → String → ScanState → ScanState)
    (schema : JsonSchema) (ptr parentName p : String)
    (hrec : ∀ sub cp csug acc, p.length < cp.length → Q acc →
      Q (rec sub cp csug acc))
    (hp1 : ∀ (a : String), 0 < a.length → p.length < (ptr ++ a).length)
    (st : ScanState) (hq : Q st) :
    Q (traverseAdditionalProperties rec schema ptr parentName st) := by
  unfold traverseAdditionalProperties
  cases schema.additionalProperties with
  | none => exact hq
  | some ap =>
    cases ap with
    | inl b => exact hq
    | inr child =>
      exact hrec child _ _ st (hp1 "/additionalProperties" (by decide)) hq

theorem traverseCombinators_preserves (Q : ScanState → Prop)
    (rec : JsonSchema → String → String → ScanState → ScanState)
    (schema : JsonSchema) (ptr parentName p : String)
    (hrec : ∀ sub cp csug acc, p.length < cp.length → Q acc →
      Q (rec sub cp csug acc))
    (hp2 : ∀ (a b : String), 0 < a.length → p.length < (ptr ++ a ++ b).length)
    (st : ScanState) (hq : Q st) :
    Q (traverseCombinators rec schema ptr parentName st) := by
  unfold traverseCombinators
  have h1 : ∀ (st' : ScanState), Q st' →
      Q (match schema.oneOf with
        | some l => foldIdx (fun acc i sub =>
            let subName := if (truthyStr sub.ref).isSome then ""
              else parentName ++ "Option" ++ natToDecimal i
            rec sub (ptr ++ "/oneOf/" ++ natToDecimal i) subName acc) st' 0 l
        | none => st') := by
    intro st' hq'
    cases schema.oneOf with
    | none => exact hq'
    | some l =>
      exact foldIdx_preserves Q _ (fun acc i sub hacc =>
        hrec sub _ _ acc (hp2 "/oneOf/" (natToDecimal i) (by decide)) hacc)
        l 0 st' hq'
  have h2 : ∀ (st' : ScanState), Q st' →
      Q (match schema.anyOf with
        | some l => foldIdx (fun acc i sub =>
            let subName := if (truthyStr sub.ref).isSome then ""
              else parentName ++ "Option" ++ natToDecimal i
            rec sub (ptr ++ "/anyOf/" ++ natToDecimal i) subName acc) st' 0 l
        | none => st') := by
    intro st' hq'
    cases schema.anyOf with
    | none => exact hq'
    | some l =>
      exact foldIdx_preserves Q _ (fun acc i sub hacc =>
        hrec sub _ _ acc (hp2 "/anyOf/" (natToDecimal i) (by decide)) hacc)
        l 0 st' hq'
  cases schema.allOf with
  | none => exact h2 _ (h1 st hq)
  | some l =>
    exact foldIdx_preserves Q _ (fun acc i sub hacc =>
      hrec sub _ _ acc (hp2 "/allOf/" (natToDecimal i) (by decide)) hacc)
      l 0 _ (h2 _ (h1 st hq))

/-- Pass 1 never changes the binding of a pointer no longer than the node's
pointer, provided the node itself computes an empty name when they are
equal. -/
theorem traverse_lookup_unchanged :
    ∀ (fuel : Nat) (schema : JsonSchema) (ptr sug : String) (st : ScanState)
      (p : String),
      (p.length < ptr.length ∨
        (p = ptr ∧ sug = "" ∧ truthyStr schema.title = none)) →
      lookupAssoc (traverse fuel schema ptr sug st).reg.entries p =
        lookupAssoc st.reg.entries p := by
  intro fuel
  induction fuel with
  | zero => intro schema ptr sug st p _; rfl
  | succ fuel ih =>
    intro schema ptr sug st p hcond
    have hp2 : ∀ (a b : String), 0 < a.length →
        p.length < (ptr ++ a ++ b).length := by
      intro a b ha
      rw [String.length_append, String.length_append]
      rcases hcond with h | ⟨h, _⟩
      · omega
      · subst h; omega
    have hp1 : ∀ (a : String), 0 < a.length →
        p.length < (ptr ++ a).length := by
      intro a ha
      rw [String.length_append]
      rcases hcond with h | ⟨h, _⟩
      · omega
      · subst h; omega
    have hrecQ : ∀ (sub : JsonSchema) (cp csug : String) (acc : ScanState),
        p.length < cp.length →
        lookupAssoc acc.reg.entries p = lookupAssoc st.reg.entries p →
        lookupAssoc (traverse fuel sub cp csug acc).reg.entries p =
          lookupAssoc st.reg.entries p := by
      intro sub cp csug acc hlen hacc
      rw [ih sub cp csug acc p (Or.inl hlen)]
      exact hacc
    have hbaseq : lookupAssoc (match truthyStr schema.ref with
        | some r => addRef st r
        | none => st).reg.entries p = lookupAssoc st.reg.entries p := by
      rw [addRef_stage_reg st (truthyStr schema.ref)]
    have hok : p ≠ ptr ∨ (match truthyStr schema.title with
        | some t =>
          if isRootOrDefinition ptr then toPascalCase t
          else if sug = "" then toPascalCase t
          else sug
        | none => sug) = "" := by
      rcases hcond with h | ⟨hpe, hsug, htitle⟩
      · left
        intro hq
        subst hq
        omega
      · right
        rw [htitle]
        exact hsug
    show lookupAssoc (traverseCombinators (traverse fuel) schema ptr _ _).reg.entries p = lookupAssoc st.reg.entries p
    exact traverseCombinators_preserves
      (fun s' => lookupAssoc s'.reg.entries p = lookupAssoc st.reg.entries p)
      (traverse fuel) schema ptr _ p hrecQ hp2 _
      (traverseAdditionalProperties_preserves _ (traverse fuel) schema ptr _ p
        hrecQ hp1 _
        (traverseItems_preserves _ (traverse fuel) schema ptr _ p hrecQ hp2
          hp1 _
          (traverseProperties_preserves _ (traverse fuel) schema ptr _ p hrecQ
            hp2 _
            (traverseDefinitions_preserves _ (traverse fuel) schema ptr _ p
              hrecQ hp2 _
              (register_stage_lookup _ ptr _ p st hbaseq hok)))))

theorem registerMissing_lookup_unchanged (refs : List String) (reg : RegState)
    (p : String) (hp : p ∉ refs) :
    lookupAssoc (registerMissingReferences refs reg).entries p =
      lookupAssoc reg.entries p := by
  unfold registerMissingReferences
  refine foldl_preserves
    (fun r' => lookupAssoc r'.entries p = lookupAssoc reg.entries p)
    _ refs (fun acc ref href hacc => ?_) reg rfl
  by_cases hs : strStartsWith ref "#" = true
  · simp only [hs, Bool.not_true, Bool.false_eq_true, if_false]
    cases ht : truthyStr (regGet acc ref) with
    | some _ => exact hacc
    | none =>
      have hne : p ≠ ref := fun hq => hp (hq ▸ href)
      rw [lookup_register_ne acc ref _ p hne]
      exact hacc
  · rw [Bool.not_eq_true] at hs
    simp only [hs, Bool.not_false, if_true]
    exact hacc

/-- Each pass-3 iteration either keeps the registry or deletes exactly its
own pointer. -/
theorem cleanupOne_cases (schema : JsonSchema) (reg : RegState) (q : String) :
    cleanupOne schema reg q = reg ∨
      cleanupOne schema reg q = regDelete reg q := by
  unfold cleanupOne
  cases resolvePointer schema q with
  | none => exact Or.inl rfl
  | some frag =>
    dsimp only
    by_cases htr : jvalTruthy frag = true
    · rw [if_pos htr]
      cases truthyStr (asSchema frag).ref with
      | none => exact Or.inl rfl
      | some r =>
        by_cases hs : strStartsWith r "#" = true
        · simp only [hs, Bool.not_true, Bool.false_eq_true, if_false]
          cases truthyStr (regGet reg r) with
          | none => exact Or.inl rfl
          | some _ =>
            cases truthyStr (regGetBaseName reg q) with
            | none => exact Or.inl rfl
            | some mb =>
              cases truthyStr (regGetBaseName reg r) with
              | none => exact Or.inl rfl
              | some tb =>
                dsimp only
                by_cases he : mb = tb
                · rw [if_pos he]
                  exact Or.inr rfl
                · rw [if_neg he]
                  exact Or.inl rfl
        · rw [Bool.not_eq_true] at hs
          simp only [hs, Bool.not_false, if_true]
          exact Or.inl trivial
    · rw [if_neg htr]
      exact Or.inl rfl

theorem cleanup_lookup_none (schema : JsonSchema) (snapshot : List String)
    (reg : RegState) (p : String) (h : lookupAssoc reg.entries p = none) :
    lookupAssoc (snapshot.foldl (cleanupOne schema) reg).entries p = none := by
  refine foldl_preserves (fun r' => lookupAssoc r'.entries p = none) _ snapshot
    (fun acc q _ hacc => ?_) reg h
  rcases cleanupOne_cases schema acc q with hc | hc
  · rw [hc]
    exact hacc
  · rw [hc]
    simp [regDelete, lookupAssoc_eraseAssoc, hacc]

/-- C10 (claim): when the root node has no title, pass 1 registers nothing
for the root pointer `#`, and unless some `$ref` collected during the
traversal targets `#`, no surviving registry entry — hence no emitted
declaration — exists for the document root. -/
theorem root_without_title_unregistered (fuel : Nat) (doc : JsonSchema)
    (htitle : doc.title = none)
    (hnoref : "#" ∉ (traverse fuel doc "#" "" ⟨emptyReg, []⟩).refs) :
    lookupAssoc (scanSchema fuel doc).entries "#" = none ∧
    "#" ∉ emittedPointers fuel doc := by
  have h1 : lookupAssoc
      (traverse fuel doc "#" "" ⟨emptyReg, []⟩).reg.entries "#" = none := by
    rw [traverse_lookup_unchanged fuel doc "#" "" ⟨emptyReg, []⟩ "#"
      (Or.inr ⟨rfl, rfl, by rw [htitle]; rfl⟩)]
    rfl
  have h2 : lookupAssoc (registerMissingReferences
      (traverse fuel doc "#" "" ⟨emptyReg, []⟩).refs
      (traverse fuel doc "#" "" ⟨emptyReg, []⟩).reg).entries "#" = none := by
    rw [registerMissing_lookup_unchanged _ _ "#" hnoref]
    exact h1
  have h3 : lookupAssoc (scanSchema fuel doc).entries "#" = none := by
    unfold scanSchema cleanupRedundantAliases
    exact cleanup_lookup_none doc _ _ "#" h2
  refine ⟨h3, ?_⟩
  intro hmem
  have hmem2 : "#" ∈ sortedPointers fuel doc := List.mem_of_mem_filter hmem
  have hmem3 : "#" ∈ survivingPointers fuel doc :=
    ((List.perm_insertionSort _ _).mem_iff).mp hmem2
  exact (lookupAssoc_eq_none _ _).mp h3 hmem3

/-- A title-less root with one property and no references. -/
def c10Doc : JsonSchema :=
  .mk none none none (some [("a", strSchema)]) none none none none none none
    none none none none none none

/-- C10 witness: the title-less root of `c10Doc` gets no registry entry and
no declaration. -/
theorem root_without_title_unregistered_witness :
    lookupAssoc (scanSchema 10 c10Doc).entries "#" = none ∧
    "#" ∉ emittedPointers 10 c10Doc :=
  root_without_title_unregistered 10 c10Doc rfl (by decide)

/-! ## Key uniqueness across the scan -/

theorem register_nodup (s : RegState) (k n : String)
    (h : (s.entries.map Prod.fst).Nodup) :
    ((register s k n).2.entries.map Prod.fst).Nodup := by
  cases hl : lookupAssoc s.entries k with
  | some e => simpa [register, hl] using h
  | none =>
    have hk : k ∉ s.entries.map Prod.fst := (lookupAssoc_eq_none _ _).mp hl
    have hk2 : ∀ (x : RegEntry), (k, x) ∉ s.entries := by
      intro x hx
      exact hk (List.mem_map_of_mem Prod.fst hx)
    simp only [register, hl, getUniqueTypeName]
    simpa [List.nodup_append] using ⟨h, hk2⟩

theorem eraseAssoc_sublist {α : Type} (l : List (String × α)) (k : String) :
    List.Sublist (eraseAssoc l k) l := by
  induction l with
  | nil => simp [eraseAssoc]
  | cons hd tl ih =>
    obtain ⟨a, b⟩ := hd
    by_cases h : a = k
    · simp only [eraseAssoc, if_pos h]
      exact ih.cons (a, b)
    · simp only [eraseAssoc, if_neg h]
      exact ih.cons₂ (a, b)

theorem regDelete_nodup (s : RegState) (k : String)
    (h : (s.entries.map Prod.fst).Nodup) :
    ((regDelete s k).entries.map Prod.fst).Nodup :=
  List.Nodup.sublist ((eraseAssoc_sublist s.entries k).map Prod.fst) h

/-- Pass 1 preserves key uniqueness in the registry. -/
theorem traverse_nodup :
    ∀ (fuel : Nat) (schema : JsonSchema) (ptr sug : String) (st : ScanState),
      (st.reg.entries.map Prod.fst).Nodup →
      ((traverse fuel schema ptr sug st).reg.entries.map Prod.fst).Nodup := by
  intro fuel
  induction fuel with
  | zero => exact fun schema ptr sug st h => h
  | succ fuel ih =>
    intro schema ptr sug st hnd
    have hrecQ : ∀ (sub : JsonSchema) (cp csug : String) (acc : ScanState),
        ("" : String).length < cp.length →
        ((acc.reg.entries.map Prod.fst).Nodup) →
        (((traverse fuel sub cp csug acc).reg.entries.map Prod.fst).Nodup) :=
      fun sub cp csug acc _ hacc => ih sub cp csug acc hacc
    have hp2 : ∀ (a b : String), 0 < a.length →
        ("" : String).length < (ptr ++ a ++ b).length := by
      intro a b ha
      rw [String.length_append, String.length_append]
      have : ("" : String).length = 0 := rfl
      omega
    have hp1 : ∀ (a : String), 0 < a.length →
        ("" : String).length < (ptr ++ a).length := by
      intro a ha
      rw [String.length_append]
      have : ("" : String).length = 0 := rfl
      omega
    have hbase : (((if (match truthyStr schema.title with
        | some t =>
          if isRootOrDefinition ptr then toPascalCase t
          else if sug = "" then toPascalCase t
          else sug
        | none => sug) = ""
        then (match truthyStr schema.ref with
          | some r => addRef st r
          | none => st)
        else ⟨(register (match truthyStr schema.ref with
          | some r => addRef st r
          | none => st).reg ptr (match truthyStr schema.title with
            | some t =>
              if isRootOrDefinition ptr then toPascalCase t
              else if sug = "" then toPascalCase t
              else sug
            | none => sug)).2,
          (match truthyStr schema.ref with
            | some r => addRef st r
            | none => st).refs⟩).reg.entries.map Prod.fst).Nodup) := by
      have hreg1 : (match truthyStr schema.ref with
          | some r => addRef st r
          | none => st).reg = st.reg := addRef_stage_reg st (truthyStr schema.ref)
      by_cases hname : (match truthyStr schema.title with
          | some t =>
            if isRootOrDefinition ptr then toPascalCase t
            else if sug = "" then toPascalCase t
            else sug
          | none => sug) = ""
      · rw [if_pos hname, hreg1]
        exact hnd
      · rw [if_neg hname]
        refine register_nodup _ ptr _ ?_
        rw [hreg1]
        exact hnd
    show (((traverseCombinators (traverse fuel) schema ptr _
        (traverseAdditionalProperties (traverse fuel) schema ptr _
          (traverseItems (traverse fuel) schema ptr _
            (traverseProperties (traverse fuel) schema ptr _
              (traverseDefinitions (traverse fuel) schema ptr _
                _))))).reg.entries.map Prod.fst).Nodup)
    exact traverseCombinators_preserves
      (fun s' => ((s'.reg.entries.map Prod.fst).Nodup))
      (traverse fuel) schema ptr _ "" hrecQ hp2 _
      (traverseAdditionalProperties_preserves _ (traverse fuel) schema ptr _ ""
        hrecQ hp1 _
        (traverseItems_preserves _ (traverse fuel) schema ptr _ "" hrecQ hp2
          hp1 _
          (traverseProperties_preserves _ (traverse fuel) schema ptr _ ""
            hrecQ hp2 _
            (traverseDefinitions_preserves _ (traverse fuel) schema ptr _ ""
              hrecQ hp2 _ hbase))))

theorem scanSchema_nodup (fuel : Nat) (doc : JsonSchema) :
    ((scanSchema fuel doc).entries.map Prod.fst).Nodup := by
  unfold scanSchema cleanupRedundantAliases
  refine foldl_preserves (fun (r' : RegState) => (r'.entries.map Prod.fst).Nodup)
    _ _ (fun acc q _ hacc => ?_) _ ?_
  · rcases cleanupOne_cases doc acc q with hc | hc
    · rw [hc]
      exact hacc
    · rw [hc]
      exact regDelete_nodup acc q hacc
  · unfold registerMissingReferences
    refine foldl_preserves
      (fun (r' : RegState) => (r'.entries.map Prod.fst).Nodup) _ _
      (fun acc ref _ hacc => ?_) _ ?_
    · by_cases hs : strStartsWith ref "#" = true
      · simp only [hs, Bool.not_true, Bool.false_eq_true, if_false]
        cases truthyStr (regGet acc ref) with
        | some _ => exact hacc
        | none => exact register_nodup acc ref _ hacc
      · rw [Bool.not_eq_true] at hs
        simp only [hs, Bool.not_false, if_true]
        exact hacc
    · exact traverse_nodup fuel doc "#" "" ⟨emptyReg, []⟩ (by simp [emptyReg])

/-! ## The generation loop emits exactly the resolvable survivors -/

theorem generateTypeDefinition_typeName (fuel : Nat) (name : String)
    (schema root : JsonSchema) (reg : Option RegState) (ptr : String)
    (r : GeneratedType)
    (h : generateTypeDefinition fuel name schema root reg ptr = some r) :
    r.typeName = name := by
  unfold generateTypeDefinition at h
  cases hb : buildTypeFromSchema fuel ⟨schema, root, reg, ptr, false⟩ with
  | none =>
    rw [hb] at h
    simp at h
  | some td =>
    rw [hb] at h
    simp only [Option.bind_eq_bind, Option.some_bind] at h
    rcases hkp : getDeclarationParts (shouldUseTypeAlias schema td) with ⟨kw, sep⟩
    rw [hkp] at h
    simp only [Option.pure_def] at h
    cases h
    rfl

theorem genLoop_eq (doc : JsonSchema) (reg : RegState) (fuel : Nat) :
    ∀ (ps : List String) (ds : List GeneratedType),
      genLoop doc reg fuel ps = some ds →
      ds.map GeneratedType.typeName =
        (ps.filter (fun p => match resolvePointer doc p with
          | some frag => jvalTruthy frag
          | none => false)).map (fun p => (regGet reg p).getD "") := by
  intro ps
  induction ps with
  | nil =>
    intro ds h
    simp only [genLoop] at h
    cases h
    rfl
  | cons p rest ih =>
    intro ds h
    simp only [genLoop] at h
    cases hres : resolvePointer doc p with
    | none =>
      simp only [hres] at h
      simp only [List.filter_cons, hres]
      exact ih ds h
    | some frag =>
      simp only [hres] at h
      by_cases htr : jvalTruthy frag = true
      · rw [if_pos htr] at h
        cases hg : generateTypeDefinition fuel ((regGet reg p).getD "")
            (asSchema frag) doc (some reg) p with
        | none =>
          rw [hg] at h
          simp at h
        | some r =>
          rw [hg] at h
          cases hrest : genLoop doc reg fuel rest with
          | none =>
            rw [hrest] at h
            simp at h
          | some ds' =>
            rw [hrest] at h
            simp only [Option.some_bind, Option.pure_def] at h
            cases h
            simp only [List.filter_cons, hres, htr, List.map_cons, if_true]
            rw [generateTypeDefinition_typeName fuel _ _ _ _ _ r hg]
            rw [ih ds' hrest]
      · rw [if_neg htr] at h
        rw [Bool.not_eq_true] at htr
        simp only [List.filter_cons, hres, htr]
        exact ih ds h

theorem emittedPointers_sorted (fuel : Nat) (doc : JsonSchema) :
    List.Sorted strLeProp (emittedPointers fuel doc) := by
  unfold emittedPointers sortedPointers
  exact List.Pairwise.sublist (List.filter_sublist _)
    (List.sorted_insertionSort _ _)

theorem emittedPointers_nodup (fuel : Nat) (doc : JsonSchema) :
    (emittedPointers fuel doc).Nodup := by
  have h1 : (survivingPointers fuel doc).Nodup := scanSchema_nodup fuel doc
  have h2 : (sortedPointers fuel doc).Nodup :=
    ((List.perm_insertionSort _ _).nodup_iff).mpr h1
  exact List.Nodup.sublist (List.filter_sublist _) h2

/-- C3 (amended): the pipeline emits exactly one declaration per surviving
registry entry whose pointer resolves to a truthy fragment — the emitted
names are those entries' assigned names, in lexicographically sorted
pointer order, no pointer contributing twice.  Entries whose pointer does
not resolve contribute no declaration (see the counterexample). -/
theorem processSchema_decls_spec :
    (∀ (fuel : Nat) (doc : JsonSchema) (ds : List GeneratedType),
        processSchema fuel doc = some ds →
        ds.map GeneratedType.typeName =
          (emittedPointers fuel doc).map
            (fun p => (regGet (scanSchema fuel doc) p).getD "")) ∧
    (∀ (fuel : Nat) (doc : JsonSchema),
        List.Sorted strLeProp (emittedPointers fuel doc) ∧
        (emittedPointers fuel doc).Nodup) := by
  constructor
  · intro fuel doc ds h
    exact genLoop_eq doc (scanSchema fuel doc) fuel (sortedPointers fuel doc)
      ds h
  · exact fun fuel doc =>
      ⟨emittedPointers_sorted fuel doc, emittedPointers_nodup fuel doc⟩

/-- C3 witness: the redundant-alias scenario document emits exactly the
one surviving resolvable entry's name. -/
theorem processSchema_decls_spec_witness :
    List.map GeneratedType.typeName
        [(⟨"type Status = string", "Status"⟩ : GeneratedType)] =
      (emittedPointers 10 c5ScenarioDoc).map
        (fun p => (regGet (scanSchema 10 c5ScenarioDoc) p).getD "") :=
  processSchema_decls_spec.1 10 c5ScenarioDoc
    [⟨"type Status = string", "Status"⟩] (by decide)

/-- A property referencing a definition that does not exist. -/
def c3RefFrag : JsonSchema :=
  .mk none none none none none none none none none none none none none none
    (some "#/definitions/Missing") none

def c3MissingDoc : JsonSchema :=
  .mk none none none (some [("a", c3RefFrag)]) none none none none none none
    none none none none none none

/-- C3 counterexample to the claim as stated: `#/definitions/Missing`
survives all three passes with assigned name `Missing`, but resolves to no
fragment, so the emitted declaration names are just `["A"]` — the
declaration-name set is strictly smaller than the surviving-entry name
set. -/
theorem processSchema_missing_counterexample :
    (processSchema 10 c3MissingDoc).map
      (fun ds => ds.map GeneratedType.typeName) = some ["A"] ∧
    "Missing" ∈ (survivingPointers 10 c3MissingDoc).map
      (fun p => (regGet (scanSchema 10 c3MissingDoc) p).getD "") ∧
    "Missing" ∉ (["A"] : List String) := by
  refine ⟨by decide, by decide, by decide⟩

/-! ## Reference cycles -/

/-- `A` referencing `B`. -/
def cycAFrag : JsonSchema :=
  .mk none none none none none none none none none none none none none none
    (some "#/definitions/B") none

/-- `B` referencing `A`. -/
def cycBFrag : JsonSchema :=
  .mk none none none none none none none none none none none none none none
    (some "#/definitions/A") none

/-- A document whose definitions form the reference cycle `A → B → A`. -/
def cycDoc : JsonSchema :=
  .mk none none none none none none none none none none none none
    (some [("A", cycAFrag), ("B", cycBFrag)]) none none none

/-- A self-referencing fragment whose primitive `type` makes the legacy
fallback inline it — the recursion the spec believes a visited set guards. -/
def selfRefFrag : JsonSchema :=
  .mk none none (some (.single "string")) none none none none none none none
    none none none none (some "#/definitions/A") none

def selfRefDoc : JsonSchema :=
  .mk none none none none none none none none none none none none
    (some [("A", selfRefFrag)]) none none none

/-- C1 counterexample to the claim as stated: the pipeline, run on the
cyclic document `A → B → A`, does not fail with a cycle error — it
terminates normally and emits the two mutually-referential declarations.
(The embedding's only failure outcome, `none`, models exhausting the
recursion budget; the source has no error outcome at all.) -/
theorem cycle_no_error_counterexample :
    processSchema 10 cycDoc =
      some [⟨"type A = B", "A"⟩, ⟨"type B = A", "B"⟩] := by
  decide

/-- C1 (amended): the builder has no visited-pointer set and no cycle
error.  A reference whose target is registered under a truthy name
resolves in a single step to that name, whatever the remaining recursion
budget — which is why pipeline runs on cyclic documents (whose reference
targets pass 2 registers) terminate and produce declarations; by contrast
the legacy fallback path, reached when the target is not registered,
recurses without any guard, exhausting every budget on a self-referencing
simple-typed fragment. -/
theorem cycle_resolution_spec :
    (∀ (fuel : Nat) (ctx : TypeBuildContext) (r n : String) (reg : RegState),
        ctx.lookupInRegistry = false →
        ctx.schema.ref = some r → r ≠ "" →
        ctx.registry = some reg →
        truthyStr (regGet reg r) = some n →
        buildTypeFromSchema (fuel + 1) ctx = some n) ∧
    (processSchema 20 cycDoc).isSome = true ∧
    (∀ (fuel : Nat),
        buildTypeFromSchema fuel
          ⟨selfRefFrag, selfRefDoc, none, "#/legacy-fallback", false⟩ =
          none) := by
  refine ⟨?_, by decide, ?_⟩
  · intro fuel ctx r n reg hlk href hrne hreg hname
    have htr : truthyStr ctx.schema.ref = some r :=
      (truthyStr_eq_some _ _).mpr ⟨href, hrne⟩
    simp only [buildTypeFromSchema, buildTypeCore, hlk, Bool.false_eq_true,
      if_false, htr, buildReferenceType, hreg, Option.some_bind, hname]
  · intro fuel
    induction fuel with
    | zero => rfl
    | succ fuel ih =>
      have hstep : buildTypeFromSchema (fuel + 1)
          ⟨selfRefFrag, selfRefDoc, none, "#/legacy-fallback", false⟩ =
          buildTypeFromSchema fuel
            ⟨selfRefFrag, selfRefDoc, none, "#/legacy-fallback", false⟩ := rfl
      rw [hstep]
      exact ih

/-- C1 witness: in the cyclic document's scanned registry, the edge
`A → B` resolves to `B` even with zero remaining budget. -/
theorem cycle_resolution_spec_witness :
    buildTypeFromSchema 1
      ⟨cycAFrag, cycDoc, some (scanSchema 10 cycDoc), "#/definitions/A",
       false⟩ = some "B" :=
  cycle_resolution_spec.1 0
    ⟨cycAFrag, cycDoc, some (scanSchema 10 cycDoc), "#/definitions/A", false⟩
    "#/definitions/B" "B" (scanSchema 10 cycDoc) rfl rfl (by decide) rfl
    (by decide)
